import Mathlib

/-!
# dsfutil / dsfswap: a shallow embedding

The two C programs of the repository (`src/dsfutil.c`, `src/dsfswap.c`) read a
DSF container, validate its 92-byte header, and rewrite the audio payload one
block pair at a time.  This file embeds the data types and `main` of both
programs as Lean definitions and proves properties of them.

Modelling conventions:

* a file is the list of its bytes; a stream is a file together with a
  position (a natural number);
* `uint64_t` / `uint32_t` values are natural numbers, and the two
  subtractions of the source are written with an explicit `% 2 ^ 64`;
* the target is a little-endian machine on which `long` has 64 bits (the
  argument of `fseek`);
* `malloc` can return the null pointer, and the source never checks its
  result: a request of `2 ^ 63` bytes or more is always refused, a request
  no larger than the input file is granted, and in between the environment
  decides.  When `fread` stores a byte through the null pointer the process
  is killed by `SIGSEGV`; nothing has been written to the output file by
  then.  When `fread` has no byte to store, `metadata_chunk` stays null and
  the final write of the metadata is skipped;
* memory that C leaves indeterminate (the two block buffers on the stack, and
  freshly allocated heap memory) is supplied by an environment `Env`, each
  run having its own;
* a run is observed through its exit status (139 = 128 + `SIGSEGV` for a
  killed process, as a shell reports it), the contents of the output file
  and the diagnostic on standard error; the feedback lines on standard
  output are not modelled.
-/

namespace DSF

/-- One octet: a `uint8_t` or `char` of a file or of memory. -/
abbrev Byte := Fin 256

/-- Data block size (`#define BLOCK_SIZE 4096`). -/
def BLOCK_SIZE : Nat := 4096

/-! ## Packed structures -/

/-- DSD chunk (`dsd_chunk_t`): `char header[4]` and three `uint64_t`. -/
structure dsd_chunk_t where
  header : List Byte
  length : Nat
  file_size : Nat
  metadata_ptr : Nat
  deriving DecidableEq

/-- The fmt chunk (`fmt_chunk_t`). -/
structure fmt_chunk_t where
  header : List Byte
  length : Nat
  version : Nat
  id : Nat
  channel_type : Nat
  num_channels : Nat
  sample_rate : Nat
  bits_per_sample : Nat
  num_samples : Nat
  block_size : Nat
  reserved : Nat
  deriving DecidableEq

/-- Header of the data chunk (`data_chunk_t`), excluding the data. -/
structure data_chunk_t where
  header : List Byte
  length : Nat
  deriving DecidableEq

/-- File header (`dsf_header_t`): the DSD, fmt and data chunks. -/
structure dsf_header_t where
  dsd_chunk : dsd_chunk_t
  fmt_chunk : fmt_chunk_t
  data_chunk : data_chunk_t
  deriving DecidableEq

/-- Value of `sizeof(dsd_chunk_t)` for the packed layout. -/
def sizeof_dsd_chunk_t : Nat := 4 + 8 + 8 + 8

/-- Value of `sizeof(fmt_chunk_t)` for the packed layout. -/
def sizeof_fmt_chunk_t : Nat := 4 + 8 + 4 + 4 + 4 + 4 + 4 + 4 + 8 + 4 + 4

/-- Value of `sizeof(data_chunk_t)` for the packed layout. -/
def sizeof_data_chunk_t : Nat := 4 + 8

/-- Value of `sizeof(dsf_header_t)`: the three chunks without padding. -/
def sizeof_dsf_header_t : Nat :=
  sizeof_dsd_chunk_t + sizeof_fmt_chunk_t + sizeof_data_chunk_t

/-- Value held by an unsigned integer field whose bytes in memory are `bs`
(little-endian: least significant byte first). -/
def leVal : List Byte → Nat
  | [] => 0
  | b :: bs => b.val + 256 * leVal bs

/-- The `n` bytes in memory of an unsigned integer field of value `v`
(little-endian). -/
def leBytes : Nat → Nat → List Byte
  | 0, _ => []
  | n + 1, v => ⟨v % 256, Nat.mod_lt v (by decide)⟩ :: leBytes n (v / 256)

/-- The `size` bytes at offset `off` of a memory image. -/
def field (bs : List Byte) (off size : Nat) : List Byte :=
  (bs.drop off).take size

/-- The structure whose memory image is `bs`: what `header` holds after
`fread(&header, 1, sizeof(dsf_header_t), in)` has stored the bytes `bs`. -/
def dsf_header_t.ofBytes (bs : List Byte) : dsf_header_t where
  dsd_chunk :=
    { header := field bs 0 4
      length := leVal (field bs 4 8)
      file_size := leVal (field bs 12 8)
      metadata_ptr := leVal (field bs 20 8) }
  fmt_chunk :=
    { header := field bs 28 4
      length := leVal (field bs 32 8)
      version := leVal (field bs 40 4)
      id := leVal (field bs 44 4)
      channel_type := leVal (field bs 48 4)
      num_channels := leVal (field bs 52 4)
      sample_rate := leVal (field bs 56 4)
      bits_per_sample := leVal (field bs 60 4)
      num_samples := leVal (field bs 64 8)
      block_size := leVal (field bs 72 4)
      reserved := leVal (field bs 76 4) }
  data_chunk :=
    { header := field bs 80 4
      length := leVal (field bs 84 8) }

/-- The memory image of a header: the bytes `fwrite(&header, 1,
sizeof(dsf_header_t), out)` writes. -/
def dsf_header_t.toBytes (h : dsf_header_t) : List Byte :=
  h.dsd_chunk.header ++ leBytes 8 h.dsd_chunk.length ++
    leBytes 8 h.dsd_chunk.file_size ++ leBytes 8 h.dsd_chunk.metadata_ptr ++
  (h.fmt_chunk.header ++ leBytes 8 h.fmt_chunk.length ++
    leBytes 4 h.fmt_chunk.version ++ leBytes 4 h.fmt_chunk.id ++
    leBytes 4 h.fmt_chunk.channel_type ++ leBytes 4 h.fmt_chunk.num_channels ++
    leBytes 4 h.fmt_chunk.sample_rate ++ leBytes 4 h.fmt_chunk.bits_per_sample ++
    leBytes 8 h.fmt_chunk.num_samples ++ leBytes 4 h.fmt_chunk.block_size ++
    leBytes 4 h.fmt_chunk.reserved) ++
  (h.data_chunk.header ++ leBytes 8 h.data_chunk.length)

/-! ## Operations -/

/-- Enum for file operations (`operation_t`). -/
inductive operation_t where
  | OP_INVALID
  | OP_SWAP_CHANNELS
  | OP_LEFT_ISOLATE
  | OP_RIGHT_ISOLATE
  | OP_LEFT_INVERT
  | OP_RIGHT_INVERT
  | OP_INVERT
  deriving DecidableEq

/-- Number of valid operations (`NUM_OPERATIONS`). -/
def NUM_OPERATIONS : Nat := 6

/-- The enumerator with integer value `i` (`operation = i`). -/
def operation_t.ofIndex : Nat → operation_t
  | 0 => .OP_SWAP_CHANNELS
  | 1 => .OP_LEFT_ISOLATE
  | 2 => .OP_RIGHT_ISOLATE
  | 3 => .OP_LEFT_INVERT
  | 4 => .OP_RIGHT_INVERT
  | 5 => .OP_INVERT
  | _ => .OP_INVALID

/-- Operation string table: keyword, description, feedback. -/
def operations : List (String × String × String) :=
  [ ("swapch", "Swaps left and right channel data", "Swapping channel order"),
    ("lisolate", "Isolates left channel; copies data to right channel",
      "Isolating left channel"),
    ("risolate", "Isolates right channel; copies data to left channel",
      "Isolating right channel"),
    ("linvert", "Inverts left channel phase", "Inverting left channel"),
    ("rinvert", "Inverts right channel phase", "Inverting right channel"),
    ("invert", "Inverts left and right channel phase", "Inverting phase") ]

/-- Keyword of row `i` of the table (`operations[i][STR_KEYWORD]`). -/
def keywordAt (i : Nat) : String :=
  match operations.get? i with
  | some row => row.1
  | none => ""

/-- The loop that reads the operation: starting from `OP_INVALID`, every row
`i < NUM_OPERATIONS` whose keyword compares equal to the argument (`strcmp`
returns 0; command-line arguments are NUL-terminated strings) sets
`operation = i`. -/
def readOperation (arg : String) : operation_t :=
  (List.range NUM_OPERATIONS).foldl
    (fun operation i => if arg = keywordAt i then operation_t.ofIndex i else operation)
    operation_t.OP_INVALID

/-! ## C library -/

/-- Model of `strncmp(s1, s2, n)`: compares at most `n` characters as
`unsigned char`, stopping after a NUL; the sign of the result is the sign of
the first difference.  Characters past the end of a list are not compared. -/
def strncmp : List Byte → List Byte → Nat → Int
  | a :: s1, b :: s2, n + 1 =>
      if a ≠ b then (a.val : Int) - (b.val : Int)
      else if a.val = 0 then 0
      else strncmp s1 s2 n
  | _, _, _ => 0

/-- The string literal `"DSD "` with its terminating NUL. -/
def lit_DSD : List Byte := [68, 83, 68, 32, 0]

/-- The string literal `"fmt "` with its terminating NUL. -/
def lit_fmt : List Byte := [102, 109, 116, 32, 0]

/-- The string literal `"data"` with its terminating NUL. -/
def lit_data : List Byte := [100, 97, 116, 97, 0]

/-- Model of `fread(buf, 1, n, in)` on a stream at position `pos`: the bytes
transferred, at most `n` and as many as the file holds from `pos` on. -/
def fread (file : List Byte) (pos n : Nat) : List Byte :=
  (file.drop pos).take n

/-- A buffer after `fread` stored `got` at its start: the rest of the buffer
keeps what it held. -/
def store (got buf : List Byte) : List Byte :=
  got ++ buf.drop got.length

/-- Model of `fwrite(buf, 1, n, out)`: the first `n` bytes of the buffer are
appended to the output. -/
def fwrite (out buf : List Byte) (n : Nat) : List Byte :=
  out ++ buf.take n

/-- Model of `fseek(in, offset, SEEK_SET)` for a `uint64_t` argument: the
argument is converted to `long` (64 bits); a value that does not fit is
negative, the call fails and the position stays where it was. -/
def fseek (pos offset : Nat) : Nat :=
  if offset < 2 ^ 63 then offset else pos

/-- The C expression `~b` stored back into a `uint8_t`: `b` is promoted to
`int`, complemented (`~x = -x - 1`), and converted modulo 256. -/
def bitNot (b : Byte) : Byte :=
  ⟨((-(b.val : Int) - 1) % 256).toNat, by omega⟩

/-! ## The program -/

/-- Diagnostics written to standard error, with the values printed. -/
inductive Diag where
  | invalidOperation (arg : String)
  | openInput
  | openOutput
  | incompleteHeader
  | invalidDsdHeader (tag : List Byte)
  | invalidDsdLength (length : Nat)
  | invalidFmtHeader (tag : List Byte)
  | invalidFmtLength (length : Nat)
  | invalidDsfFile
  | invalidDataHeader (tag : List Byte)
  | invalidChannels (num_channels : Nat)
  deriving DecidableEq

/-- What a run leaves behind: the exit status (139 when the process was
killed by `SIGSEGV`), the contents of the output file (`none` when the
program never opened it), and the diagnostic written to standard error, if
any. -/
structure Outcome where
  status : Nat
  output : Option (List Byte)
  diag : Option Diag
  deriving DecidableEq

/-- What a run does not control: the initial contents of the stack buffers
`blockL` and `blockR`, the contents of freshly allocated heap memory, by
index, and whether the allocator is out of memory for a request of a given
size. -/
structure Env where
  stackL : Nat → Byte
  stackR : Nat → Byte
  heap : Nat → Byte
  oom : Nat → Bool

/-- Model of `malloc(size)`: `true` when memory is returned, `false` for the
null pointer.  A request of `2 ^ 63` bytes or more (above `PTRDIFF_MAX`) is
always refused.  A request that does not exceed the size of the input file
is granted: the machine that holds the file has the memory for it.  For the
requests in between the environment decides. -/
def malloc (env : Env) (input : List Byte) (size : Nat) : Bool :=
  decide (size < 2 ^ 63) && (decide (size ≤ input.length) || !env.oom size)

/-- Result of the metadata code: the pointer `metadata_chunk` is null, or it
points to a buffer with the given contents, or the process was killed by
`SIGSEGV` when `fread` stored through the null pointer. -/
inductive MetadataRead where
  | null
  | buffer (bytes : List Byte)
  | segv
  deriving DecidableEq

/-- The header checks of `main` in source order; the result is the
diagnostic of the first check that fails, `none` when all pass. -/
def validate (header : dsf_header_t) : Option Diag :=
  -- Verify DSD chunk header
  if strncmp header.dsd_chunk.header lit_DSD 4 ≠ 0 then
    some (.invalidDsdHeader header.dsd_chunk.header)
  -- Verify DSD chunk length
  else if header.dsd_chunk.length ≠ sizeof_dsd_chunk_t then
    some (.invalidDsdLength header.dsd_chunk.length)
  -- Verify fmt chunk header
  else if strncmp header.fmt_chunk.header lit_fmt 4 ≠ 0 then
    some (.invalidFmtHeader header.fmt_chunk.header)
  -- Verify fmt chunk length
  else if header.fmt_chunk.length ≠ sizeof_fmt_chunk_t then
    some (.invalidFmtLength header.fmt_chunk.length)
  -- Verify other fmt chunk properties
  else if header.fmt_chunk.version ≠ 1 ∨ header.fmt_chunk.id ≠ 0 ∨
      header.fmt_chunk.sample_rate % 2822400 ≠ 0 ∨
      (header.fmt_chunk.bits_per_sample ≠ 1 ∧ header.fmt_chunk.bits_per_sample ≠ 8) ∨
      header.fmt_chunk.block_size ≠ BLOCK_SIZE ∨ header.fmt_chunk.reserved ≠ 0 then
    some .invalidDsfFile
  -- Verify data chunk header
  else if strncmp header.data_chunk.header lit_data 4 ≠ 0 then
    some (.invalidDataHeader header.data_chunk.header)
  -- Ensure input file is stereo
  else if header.fmt_chunk.channel_type ≠ 2 ∨ header.fmt_chunk.num_channels ≠ 2 then
    some (.invalidChannels header.fmt_chunk.num_channels)
  else none

/-- Length of the metadata chunk: `file_size - metadata_ptr` in `uint64_t`
arithmetic. -/
@[irreducible] def metadataLength (header : dsf_header_t) : Nat :=
  (header.dsd_chunk.file_size + 2 ^ 64 - header.dsd_chunk.metadata_ptr) % 2 ^ 64

/-- Read in metadata if present.  With a non-zero `metadata_ptr`: allocate
`metadata_length` bytes, seek to `metadata_ptr` (from the position after the
header) and read into `metadata_chunk`.  The result of `malloc` is not
checked: when it is the null pointer, `fread` stores the bytes it reads
through it and the process is killed, unless there is no byte to read, in
which case `metadata_chunk` stays null.  In the other branch
`metadata_chunk` is set to `NULL`. -/
def readMetadata (env : Env) (header : dsf_header_t) (input : List Byte) :
    MetadataRead :=
  if header.dsd_chunk.metadata_ptr ≠ 0 then
    let metadata_length := metadataLength header
    let pos := fseek sizeof_dsf_header_t header.dsd_chunk.metadata_ptr
    let got := fread input pos metadata_length
    if malloc env input metadata_length then
      .buffer (store got ((List.range metadata_length).map env.heap))
    else if got = [] then .null
    else .segv
  else
    .null

/-- Number of blocks: `(header.data_chunk.length - sizeof(data_chunk_t)) /
BLOCK_SIZE` in `uint64_t` arithmetic. -/
@[irreducible] def numBlocks (header : dsf_header_t) : Nat :=
  ((header.data_chunk.length + 2 ^ 64 - sizeof_data_chunk_t) % 2 ^ 64) / BLOCK_SIZE

/-- State of the block loop: the read position of `in`, the two block
buffers, and the bytes written to `out` so far. -/
structure LoopState where
  pos : Nat
  blockL : List Byte
  blockR : List Byte
  out : List Byte
  deriving DecidableEq

/-- One iteration of the block loop: read in a block pair, then the `switch`
on the operation.  For the first three operations the case writes and
continues; the invert cases change the buffers and break to the common
write; no case matches `OP_INVALID`, which falls to the common write. -/
def loopBody (operation : operation_t) (input : List Byte) (s : LoopState) :
    LoopState :=
  let gotL := fread input s.pos BLOCK_SIZE
  let blockL := store gotL s.blockL
  let gotR := fread input (s.pos + gotL.length) BLOCK_SIZE
  let blockR := store gotR s.blockR
  let pos := s.pos + gotL.length + gotR.length
  match operation with
  | .OP_SWAP_CHANNELS =>
      { pos := pos, blockL := blockL, blockR := blockR,
        out := fwrite (fwrite s.out blockR BLOCK_SIZE) blockL BLOCK_SIZE }
  | .OP_LEFT_ISOLATE =>
      { pos := pos, blockL := blockL, blockR := blockR,
        out := fwrite (fwrite s.out blockL BLOCK_SIZE) blockL BLOCK_SIZE }
  | .OP_RIGHT_ISOLATE =>
      { pos := pos, blockL := blockL, blockR := blockR,
        out := fwrite (fwrite s.out blockR BLOCK_SIZE) blockR BLOCK_SIZE }
  | .OP_LEFT_INVERT =>
      let blockL := blockL.map bitNot
      { pos := pos, blockL := blockL, blockR := blockR,
        out := fwrite (fwrite s.out blockL BLOCK_SIZE) blockR BLOCK_SIZE }
  | .OP_RIGHT_INVERT =>
      let blockR := blockR.map bitNot
      { pos := pos, blockL := blockL, blockR := blockR,
        out := fwrite (fwrite s.out blockL BLOCK_SIZE) blockR BLOCK_SIZE }
  | .OP_INVERT =>
      let blockL := blockL.map bitNot
      let blockR := blockR.map bitNot
      { pos := pos, blockL := blockL, blockR := blockR,
        out := fwrite (fwrite s.out blockL BLOCK_SIZE) blockR BLOCK_SIZE }
  | .OP_INVALID =>
      { pos := pos, blockL := blockL, blockR := blockR,
        out := fwrite (fwrite s.out blockL BLOCK_SIZE) blockR BLOCK_SIZE }

/-- The loop `for (i = 0; i < num_blocks; i += 2)` from the value `i` of the
counter on, with `i += 2` in `uint64_t` arithmetic.  The bound on
`num_blocks` (a quotient by `BLOCK_SIZE`) is what makes the loop end. -/
def blockLoop (operation : operation_t) (input : List Byte) (num_blocks : Nat)
    (hn : num_blocks < 2 ^ 52) (i : Nat) (s : LoopState) : LoopState :=
  if i < num_blocks then
    blockLoop operation input num_blocks hn ((i + 2) % 2 ^ 64)
      (loopBody operation input s)
  else s
termination_by num_blocks - i
decreasing_by omega

/-- The loop `for (i = 0; i < num_blocks; i += 2)` for any `num_blocks`,
with a budget of steps in place of the bound on `num_blocks`: `none` when
the budget is used up before the loop ends. -/
def blockLoopFuel (operation : operation_t) (input : List Byte) (num_blocks : Nat) :
    Nat → Nat → LoopState → Option LoopState
  | 0, _, _ => none
  | fuel + 1, i, s =>
      if i < num_blocks then
        blockLoopFuel operation input num_blocks fuel ((i + 2) % 2 ^ 64)
          (loopBody operation input s)
      else some s

/-- State of the block loop on entry: the stream is positioned after the
header, the buffers are indeterminate, `out` is what was written so far. -/
def loopEntry (env : Env) (out : List Byte) : LoopState :=
  { pos := sizeof_dsf_header_t
    blockL := (List.range BLOCK_SIZE).map env.stackL
    blockR := (List.range BLOCK_SIZE).map env.stackR
    out := out }

/-- The part of `main` that follows the opening of the two files: read and
check the header, read the metadata, then write header, transformed blocks
and metadata.  On an error the output file has been opened and is closed
with nothing written to it.  A process killed while it reads the metadata
leaves the output file empty as well: the header is written later. -/
def convert (env : Env) (operation : operation_t) (input : List Byte) : Outcome :=
  -- Attempt to read file header
  let got := fread input 0 sizeof_dsf_header_t
  if got.length ≠ sizeof_dsf_header_t then
    { status := 1, output := some [], diag := some .incompleteHeader }
  else
    let header := dsf_header_t.ofBytes got
    match validate header with
    | some d => { status := 1, output := some [], diag := some d }
    | none =>
      -- Read in metadata if present
      let metadata_chunk := readMetadata env header input
      if metadata_chunk = .segv then
        { status := 139, output := some [], diag := none }
      else
        -- Write header
        let out := fwrite [] header.toBytes sizeof_dsf_header_t
        -- Read and write blocks
        let s := blockLoop operation input (numBlocks header)
          (by unfold numBlocks BLOCK_SIZE; omega) 0 (loopEntry env out)
        -- Write metadata chunk if present
        let out :=
          match metadata_chunk with
          | .buffer chunk => fwrite s.out chunk (metadataLength header)
          | _ => s.out
        { status := 0, output := some out, diag := none }

namespace dsfutil

/-- The program `dsfutil`: `argv` is the argument vector, `inFile` the
contents of the file named by `argv[2]` (`none` when it cannot be opened for
reading), `outOpens` whether the file named by `argv[3]` can be opened for
writing (it is a file other than the input). -/
def main (env : Env) (argv : List String) (inFile : Option (List Byte))
    (outOpens : Bool) : Outcome :=
  match argv with
  | [_, arg1, _, _] =>
    -- Attempt to read in operation
    let operation := readOperation arg1
    -- Ensure operation valid
    if operation = .OP_INVALID then
      { status := 1, output := none, diag := some (.invalidOperation arg1) }
    else
      match inFile with
      | none => { status := 1, output := none, diag := some .openInput }
      | some input =>
        if outOpens then convert env operation input
        else { status := 1, output := none, diag := some .openOutput }
  | _ =>
    -- Usage
    { status := 0, output := none, diag := none }

end dsfutil

/-! ## The program `dsfswap`

`dsfswap.c` repeats the structures, the header checks and the metadata code
of `dsfutil.c`; its loop body swaps the two blocks.  The definitions below
are translated from `dsfswap.c`. -/

namespace dsfswap

/-- The header checks of `main` of `dsfswap.c` in source order. -/
def validate (header : dsf_header_t) : Option Diag :=
  -- Verify DSD chunk header
  if strncmp header.dsd_chunk.header lit_DSD 4 ≠ 0 then
    some (.invalidDsdHeader header.dsd_chunk.header)
  -- Verify DSD chunk length
  else if header.dsd_chunk.length ≠ sizeof_dsd_chunk_t then
    some (.invalidDsdLength header.dsd_chunk.length)
  -- Verify fmt chunk header
  else if strncmp header.fmt_chunk.header lit_fmt 4 ≠ 0 then
    some (.invalidFmtHeader header.fmt_chunk.header)
  -- Verify fmt chunk length
  else if header.fmt_chunk.length ≠ sizeof_fmt_chunk_t then
    some (.invalidFmtLength header.fmt_chunk.length)
  -- Verify other fmt chunk properties
  else if header.fmt_chunk.version ≠ 1 ∨ header.fmt_chunk.id ≠ 0 ∨
      header.fmt_chunk.sample_rate % 2822400 ≠ 0 ∨
      (header.fmt_chunk.bits_per_sample ≠ 1 ∧ header.fmt_chunk.bits_per_sample ≠ 8) ∨
      header.fmt_chunk.block_size ≠ BLOCK_SIZE ∨ header.fmt_chunk.reserved ≠ 0 then
    some .invalidDsfFile
  -- Verify data chunk header
  else if strncmp header.data_chunk.header lit_data 4 ≠ 0 then
    some (.invalidDataHeader header.data_chunk.header)
  -- Ensure input file is stereo
  else if header.fmt_chunk.channel_type ≠ 2 ∨ header.fmt_chunk.num_channels ≠ 2 then
    some (.invalidChannels header.fmt_chunk.num_channels)
  else none

/-- Read in metadata if present (`dsfswap.c`): allocate, seek and read as in
`dsfutil.c`, the result of `malloc` unchecked. -/
def readMetadata (env : Env) (header : dsf_header_t) (input : List Byte) :
    MetadataRead :=
  if header.dsd_chunk.metadata_ptr ≠ 0 then
    let metadata_length :=
      (header.dsd_chunk.file_size + 2 ^ 64 - header.dsd_chunk.metadata_ptr) % 2 ^ 64
    let pos := fseek sizeof_dsf_header_t header.dsd_chunk.metadata_ptr
    let got := fread input pos metadata_length
    if malloc env input metadata_length then
      .buffer (store got ((List.range metadata_length).map env.heap))
    else if got = [] then .null
    else .segv
  else
    .null

/-- One iteration of the block loop of `dsfswap.c`: read in a block pair
into `block1` and `block2` (held in the fields `blockL` and `blockR` of the
state), write the pair in alternate order. -/
def loopBody (input : List Byte) (s : LoopState) : LoopState :=
  let got1 := fread input s.pos BLOCK_SIZE
  let block1 := store got1 s.blockL
  let got2 := fread input (s.pos + got1.length) BLOCK_SIZE
  let block2 := store got2 s.blockR
  { pos := s.pos + got1.length + got2.length
    blockL := block1
    blockR := block2
    out := fwrite (fwrite s.out block2 BLOCK_SIZE) block1 BLOCK_SIZE }

/-- The loop `for (i = 0; i < num_blocks; i += 2)` of `dsfswap.c`. -/
def blockLoop (input : List Byte) (num_blocks : Nat) (hn : num_blocks < 2 ^ 52)
    (i : Nat) (s : LoopState) : LoopState :=
  if i < num_blocks then
    blockLoop input num_blocks hn ((i + 2) % 2 ^ 64) (loopBody input s)
  else s
termination_by num_blocks - i
decreasing_by omega

/-- The part of `main` of `dsfswap.c` that follows the opening of the two
files. -/
def convert (env : Env) (input : List Byte) : Outcome :=
  -- Attempt to read file header
  let got := fread input 0 sizeof_dsf_header_t
  if got.length ≠ sizeof_dsf_header_t then
    { status := 1, output := some [], diag := some .incompleteHeader }
  else
    let header := dsf_header_t.ofBytes got
    match validate header with
    | some d => { status := 1, output := some [], diag := some d }
    | none =>
      -- Read in metadata if present
      let metadata_chunk := readMetadata env header input
      let metadata_length :=
        (header.dsd_chunk.file_size + 2 ^ 64 - header.dsd_chunk.metadata_ptr) % 2 ^ 64
      if metadata_chunk = .segv then
        { status := 139, output := some [], diag := none }
      else
        -- Write header
        let out := fwrite [] header.toBytes sizeof_dsf_header_t
        -- Calculate number of blocks
        let num_blocks :=
          ((header.data_chunk.length + 2 ^ 64 - sizeof_data_chunk_t) % 2 ^ 64) / BLOCK_SIZE
        -- Read and write blocks
        let s := blockLoop input num_blocks
          (by simp only [num_blocks, BLOCK_SIZE]; omega) 0 (loopEntry env out)
        -- Write metadata chunk if present
        let out :=
          match metadata_chunk with
          | .buffer chunk => fwrite s.out chunk metadata_length
          | _ => s.out
        { status := 0, output := some out, diag := none }

/-- The program `dsfswap`: `argv` is the argument vector, `inFile` the
contents of the file named by `argv[1]` (`none` when it cannot be opened for
reading), `outOpens` whether the file named by `argv[2]` can be opened for
writing. -/
def main (env : Env) (argv : List String) (inFile : Option (List Byte))
    (outOpens : Bool) : Outcome :=
  match argv with
  | [_, _, _] =>
    match inFile with
    | none => { status := 1, output := none, diag := some .openInput }
    | some input =>
      if outOpens then convert env input
      else { status := 1, output := none, diag := some .openOutput }
  | _ =>
    -- Usage
    { status := 0, output := none, diag := none }

end dsfswap

/-! ## Specification-side definitions -/

/-- Names of the three chunks. -/
inductive Chunk where
  | DSD
  | fmt
  | data
  deriving DecidableEq

/-- Error kinds of the specification (section 7). -/
inductive ErrorKind where
  | IoOpenFailure
  | TruncatedHeader
  | InvalidTag (chunk : Chunk)
  | InvalidChunkLength (chunk : Chunk)
  | UnsupportedFormatProfile
  | UnsupportedChannelLayout
  | CorruptMetadataPointer
  | UnknownOperation
  deriving DecidableEq

/-- The error kind of the specification that a diagnostic of the program
stands for. -/
def Diag.kind : Diag → ErrorKind
  | .invalidOperation _ => .UnknownOperation
  | .openInput => .IoOpenFailure
  | .openOutput => .IoOpenFailure
  | .incompleteHeader => .TruncatedHeader
  | .invalidDsdHeader _ => .InvalidTag .DSD
  | .invalidDsdLength _ => .InvalidChunkLength .DSD
  | .invalidFmtHeader _ => .InvalidTag .fmt
  | .invalidFmtLength _ => .InvalidChunkLength .fmt
  | .invalidDsfFile => .UnsupportedFormatProfile
  | .invalidDataHeader _ => .InvalidTag .data
  | .invalidChannels _ => .UnsupportedChannelLayout

/-- The four characters `DSD ` of the DSD tag. -/
def tag_DSD : List Byte := [68, 83, 68, 32]

/-- The four characters `fmt ` of the fmt tag. -/
def tag_fmt : List Byte := [102, 109, 116, 32]

/-- The four characters `data` of the data tag. -/
def tag_data : List Byte := [100, 97, 116, 97]

/-- The seven ordered checks of the validator of the specification (section
4.2): whether the check passes, and the error kind reported when it fails. -/
def specChecks (h : dsf_header_t) : List (Bool × ErrorKind) :=
  [ (decide (h.dsd_chunk.header = tag_DSD), .InvalidTag .DSD),
    (decide (h.dsd_chunk.length = 28), .InvalidChunkLength .DSD),
    (decide (h.fmt_chunk.header = tag_fmt), .InvalidTag .fmt),
    (decide (h.fmt_chunk.length = 52), .InvalidChunkLength .fmt),
    (decide (h.fmt_chunk.version = 1 ∧ h.fmt_chunk.id = 0 ∧
        h.fmt_chunk.sample_rate % 2822400 = 0 ∧
        (h.fmt_chunk.bits_per_sample = 1 ∨ h.fmt_chunk.bits_per_sample = 8) ∧
        h.fmt_chunk.block_size = 4096 ∧ h.fmt_chunk.reserved = 0),
      .UnsupportedFormatProfile),
    (decide (h.data_chunk.header = tag_data), .InvalidTag .data),
    (decide (h.fmt_chunk.channel_type = 2 ∧ h.fmt_chunk.num_channels = 2),
      .UnsupportedChannelLayout) ]

/-- The validator of the specification: the error kind of the
lowest-numbered failing check, `none` when every check passes. -/
def specValidate (h : dsf_header_t) : Option ErrorKind :=
  ((specChecks h).find? (fun c => !c.1)).map (fun c => c.2)


/-- Block transformer of the specification (section 4.4): the block pair to
emit for the input pair `(L, R)`.  `OP_INVALID` is given the pair unchanged. -/
def transformPair (operation : operation_t) (L R : List Byte) : List Byte :=
  match operation with
  | .OP_SWAP_CHANNELS => R ++ L
  | .OP_LEFT_ISOLATE => L ++ L
  | .OP_RIGHT_ISOLATE => R ++ R
  | .OP_LEFT_INVERT => L.map bitNot ++ R
  | .OP_RIGHT_INVERT => L ++ R.map bitNot
  | .OP_INVERT => L.map bitNot ++ R.map bitNot
  | .OP_INVALID => L ++ R

/-- The bytes the final `fwrite` of the metadata chunk appends. -/
def metadataOut (env : Env) (header : dsf_header_t) (input : List Byte) : List Byte :=
  match readMetadata env header input with
  | .buffer chunk => chunk.take (metadataLength header)
  | _ => []

/-- The header structure the program holds after reading the first
`sizeof(dsf_header_t)` bytes of the input. -/
def readHeader (input : List Byte) : dsf_header_t :=
  dsf_header_t.ofBytes (fread input 0 sizeof_dsf_header_t)

/-- The metadata allocation succeeds: there is no metadata to read
(`metadata_ptr` is 0), or `malloc` returns memory for the
`(file_size - metadata_ptr) mod 2 ^ 64` bytes requested. -/
def MetadataAllocated (env : Env) (header : dsf_header_t) (input : List Byte) : Prop :=
  header.dsd_chunk.metadata_ptr = 0 ∨ malloc env input (metadataLength header) = true

/-- In-order concatenation, over the `n` block pairs that start at offset
`pos` of the input, of the transformed pair of the left block (4096 bytes at
`pos + 8192 * k`) and the right block (the next 4096 bytes). -/
def pairsOut (operation : operation_t) (input : List Byte) (pos n : Nat) : List Byte :=
  (List.range n).flatMap (fun k =>
    transformPair operation (fread input (pos + 8192 * k) 4096)
      (fread input (pos + 8192 * k + 4096) 4096))

/-- The block transformer applied to the first `n` block pairs of a payload,
by recursion on the payload. -/
def mapPairs (operation : operation_t) : Nat → List Byte → List Byte
  | 0, _ => []
  | n + 1, p =>
      transformPair operation (p.take 4096) ((p.drop 4096).take 4096) ++
        mapPairs operation n (p.drop 8192)

/-- The unsigned value of the `size` bytes at offset `off` of the input,
least significant byte first (little-endian). -/
def littleEndianAt (input : List Byte) (off size : Nat) : Nat :=
  ((List.range size).map (fun i => (input.getD (off + i) 0).val * 256 ^ i)).sum

/-! ## Sample inputs -/

/-- A header of the supported profile (stereo, 2822400 Hz, 1 bit per sample,
block size 4096) with the given `file_size`, `metadata_ptr` and data chunk
length. -/
def sampleHeader (file_size metadata_ptr data_length : Nat) : dsf_header_t where
  dsd_chunk :=
    { header := [68, 83, 68, 32]
      length := 28
      file_size := file_size
      metadata_ptr := metadata_ptr }
  fmt_chunk :=
    { header := [102, 109, 116, 32]
      length := 52
      version := 1
      id := 0
      channel_type := 2
      num_channels := 2
      sample_rate := 2822400
      bits_per_sample := 1
      num_samples := 0
      block_size := 4096
      reserved := 0 }
  data_chunk :=
    { header := [100, 97, 116, 97]
      length := data_length }

/-- A 92-byte input whose header violates only the format-profile check:
the sample rate 44100 is not a multiple of 2822400. -/
def badRateInput : List Byte :=
  ({ sampleHeader 92 0 12 with
      fmt_chunk := { (sampleHeader 92 0 12).fmt_chunk with sample_rate := 44100 } } :
    dsf_header_t).toBytes

/-- A container whose payload is three blocks (12288 bytes): one block pair
and one more block. -/
def oddBlocksInput : List Byte :=
  (sampleHeader 12380 0 12300).toBytes ++ List.replicate 12288 0

/-- A header-only container whose metadata pointer equals its file size. -/
def emptyMetadataInput : List Byte :=
  (sampleHeader 92 92 12).toBytes

/-- A container without payload whose three bytes of metadata follow the
header. -/
def metadataInput : List Byte :=
  (sampleHeader 95 92 12).toBytes ++ [1, 2, 3]

/-- A container without payload, with one byte of gap before its one byte of
metadata at offset 93. -/
def gapInput : List Byte :=
  (sampleHeader 94 93 12).toBytes ++ [7, 9]

/-- A header-only container whose data chunk length, 0, is below the 12
bytes of the data chunk header. -/
def shortLengthInput : List Byte :=
  (sampleHeader 92 0 0).toBytes

/-- Indeterminate memory that happens to hold zeros, with an allocator that
is never out of memory. -/
def zeroEnv : Env where
  stackL := fun _ => 0
  stackR := fun _ => 0
  heap := fun _ => 0
  oom := fun _ => false

/-- A block of 4096 bytes `0x00`. -/
def block00 : List Byte := List.replicate 4096 0

/-- A block of 4096 bytes `0xFF`. -/
def blockFF : List Byte := List.replicate 4096 255

/-- The container of the concrete scenario of the specification (section 8):
no metadata, two block pairs, left blocks all `0x00`, right blocks all
`0xFF`. -/
def scenarioInput : List Byte :=
  (sampleHeader 16476 0 16396).toBytes ++ (block00 ++ blockFF ++ block00 ++ blockFF)

/-- The payload of the concrete scenario behind a header whose metadata
pointer, 93, lies beyond its file size, 92: the metadata length wraps to
`2 ^ 64 - 1`. -/
def danglingInput : List Byte :=
  (sampleHeader 92 93 16396).toBytes ++ (block00 ++ blockFF ++ block00 ++ blockFF)

/-- A header whose data chunk length is 0 and whose metadata pointer, 93,
lies beyond its file size, 92, followed by two bytes. -/
def danglingShortLengthInput : List Byte :=
  (sampleHeader 92 93 0).toBytes ++ [0, 0]

theorem strncmp_eq_zero_iff (n : Nat) :
    ∀ (s lit : List Byte), s.length = n → n ≤ lit.length →
      (∀ x ∈ lit.take n, x.val ≠ 0) → (strncmp s lit n = 0 ↔ s = lit.take n) := by
  induction n with
  | zero =>
    intro s lit hs _ _
    have : s = [] := List.length_eq_zero.mp hs
    subst this
    simp [strncmp]
  | succ n ih =>
    intro s lit hs hl hnz
    rcases s with _ | ⟨a, s⟩
    · simp at hs
    rcases lit with _ | ⟨b, lit⟩
    · simp at hl
    simp only [List.length_cons, Nat.add_right_cancel_iff] at hs
    simp only [List.length_cons, Nat.add_le_add_iff_right] at hl
    simp only [List.take_succ_cons, List.mem_cons, forall_eq_or_imp] at hnz
    by_cases hab : a = b
    · subst hab
      simp only [strncmp, ne_eq, not_true_eq_false, if_false, if_neg hnz.1,
        List.take_succ_cons, List.cons.injEq, true_and]
      exact ih s lit hs hl hnz.2
    · have hv : (a.val : Int) - (b.val : Int) ≠ 0 := by
        intro h
        apply hab
        apply Fin.ext
        omega
      simp [strncmp, hab, hv]

theorem leBytes_leVal (bs : List Byte) : leBytes bs.length (leVal bs) = bs := by
  induction bs with
  | nil => rfl
  | cons b bs ih =>
    have h1 : (b.val + 256 * leVal bs) % 256 = b.val := by
      have := b.isLt
      omega
    have h2 : (b.val + 256 * leVal bs) / 256 = leVal bs := by
      have := b.isLt
      omega
    simp only [List.length_cons, leBytes, leVal, h1, h2, ih]

theorem leVal_lt (bs : List Byte) : leVal bs < 256 ^ bs.length := by
  induction bs with
  | nil => simp [leVal]
  | cons b bs ih =>
    have := b.isLt
    simp only [leVal, List.length_cons, pow_succ]
    omega

theorem length_leBytes (n v : Nat) : (leBytes n v).length = n := by
  induction n generalizing v with
  | zero => rfl
  | succ n ih => simp [leBytes, ih]

theorem length_field (bs : List Byte) (off size : Nat) (h : off + size ≤ bs.length) :
    (field bs off size).length = size := by
  simp only [field, List.length_take, List.length_drop]
  omega

theorem field_append_drop (bs : List Byte) (off size : Nat) :
    field bs off size ++ bs.drop (off + size) = bs.drop off := by
  have h := List.take_append_drop size (bs.drop off)
  rw [List.drop_drop] at h
  exact h

theorem leBytes_field (bs : List Byte) (off size : Nat) (h : off + size ≤ bs.length) :
    leBytes size (leVal (field bs off size)) = field bs off size := by
  have := leBytes_leVal (field bs off size)
  rwa [length_field bs off size h] at this

/-- Writing back the header structure reproduces the bytes it was read from. -/
theorem toBytes_ofBytes (bs : List Byte) (h : bs.length = 92) :
    (dsf_header_t.ofBytes bs).toBytes = bs := by
  have e : bs.drop 92 = [] := List.drop_eq_nil_of_le (by omega)
  have k0 : field bs 0 4 ++ bs.drop 4 = bs := field_append_drop bs 0 4
  have k1 : field bs 4 8 ++ bs.drop 12 = bs.drop 4 := field_append_drop bs 4 8
  have k2 : field bs 12 8 ++ bs.drop 20 = bs.drop 12 := field_append_drop bs 12 8
  have k3 : field bs 20 8 ++ bs.drop 28 = bs.drop 20 := field_append_drop bs 20 8
  have k4 : field bs 28 4 ++ bs.drop 32 = bs.drop 28 := field_append_drop bs 28 4
  have k5 : field bs 32 8 ++ bs.drop 40 = bs.drop 32 := field_append_drop bs 32 8
  have k6 : field bs 40 4 ++ bs.drop 44 = bs.drop 40 := field_append_drop bs 40 4
  have k7 : field bs 44 4 ++ bs.drop 48 = bs.drop 44 := field_append_drop bs 44 4
  have k8 : field bs 48 4 ++ bs.drop 52 = bs.drop 48 := field_append_drop bs 48 4
  have k9 : field bs 52 4 ++ bs.drop 56 = bs.drop 52 := field_append_drop bs 52 4
  have k10 : field bs 56 4 ++ bs.drop 60 = bs.drop 56 := field_append_drop bs 56 4
  have k11 : field bs 60 4 ++ bs.drop 64 = bs.drop 60 := field_append_drop bs 60 4
  have k12 : field bs 64 8 ++ bs.drop 72 = bs.drop 64 := field_append_drop bs 64 8
  have k13 : field bs 72 4 ++ bs.drop 76 = bs.drop 72 := field_append_drop bs 72 4
  have k14 : field bs 76 4 ++ bs.drop 80 = bs.drop 76 := field_append_drop bs 76 4
  have k15 : field bs 80 4 ++ bs.drop 84 = bs.drop 80 := field_append_drop bs 80 4
  have k16 : field bs 84 8 ++ bs.drop 92 = bs.drop 84 := field_append_drop bs 84 8
  rw [e, List.append_nil] at k16
  simp only [dsf_header_t.toBytes, dsf_header_t.ofBytes, List.append_assoc]
  rw [leBytes_field bs 4 8 (by omega), leBytes_field bs 12 8 (by omega),
    leBytes_field bs 20 8 (by omega), leBytes_field bs 32 8 (by omega),
    leBytes_field bs 40 4 (by omega), leBytes_field bs 44 4 (by omega),
    leBytes_field bs 48 4 (by omega), leBytes_field bs 52 4 (by omega),
    leBytes_field bs 56 4 (by omega), leBytes_field bs 60 4 (by omega),
    leBytes_field bs 64 8 (by omega), leBytes_field bs 72 4 (by omega),
    leBytes_field bs 76 4 (by omega), leBytes_field bs 84 8 (by omega)]
  rw [k16, k15, k14, k13, k12, k11, k10, k9, k8, k7, k6, k5, k4, k3, k2, k1, k0]

theorem length_toBytes_ofBytes (bs : List Byte) (h : bs.length = 92) :
    (dsf_header_t.ofBytes bs).toBytes.length = 92 := by
  rw [toBytes_ofBytes bs h, h]

theorem length_fread_le (file : List Byte) (pos n : Nat) :
    (fread file pos n).length ≤ n := by
  simp only [fread, List.length_take, List.length_drop]
  omega

theorem length_fread (file : List Byte) (pos n : Nat) (h : pos + n ≤ file.length) :
    (fread file pos n).length = n := by
  simp only [fread, List.length_take, List.length_drop]
  omega

theorem length_store (got buf : List Byte) (h : got.length ≤ buf.length) :
    (store got buf).length = buf.length := by
  simp only [store, List.length_append, List.length_drop]
  omega

theorem store_full (got buf : List Byte) (h : got.length = buf.length) :
    store got buf = got := by
  simp [store, h]

/-! ## The block loop -/

/-- The loop runs the body `ceil(num_blocks / 2)` times. -/
theorem blockLoop_eq_iterate (operation : operation_t) (input : List Byte)
    (num_blocks : Nat) (hn : num_blocks < 2 ^ 52) :
    ∀ (k i : Nat) (s : LoopState), (num_blocks + 1 - i) / 2 = k →
      blockLoop operation input num_blocks hn i s = (loopBody operation input)^[k] s := by
  intro k
  induction k with
  | zero =>
    intro i s h
    rw [blockLoop]
    have : ¬ i < num_blocks := by omega
    simp [this]
  | succ k ih =>
    intro i s h
    rw [blockLoop]
    have hi : i < num_blocks := by omega
    have hw : (i + 2) % 2 ^ 64 = i + 2 := Nat.mod_eq_of_lt (by omega)
    rw [if_pos hi, hw, Function.iterate_succ_apply]
    exact ih (i + 2) _ (by omega)

/-- One iteration keeps the two buffers full and appends 8192 bytes. -/
theorem loopBody_any (operation : operation_t) (input : List Byte) (s : LoopState)
    (hL : s.blockL.length = 4096) (hR : s.blockR.length = 4096) :
    (loopBody operation input s).blockL.length = 4096 ∧
    (loopBody operation input s).blockR.length = 4096 ∧
    ∃ X, (loopBody operation input s).out = s.out ++ X ∧ X.length = 8192 := by
  have h1 := length_fread_le input s.pos 4096
  have h2 := length_fread_le input (s.pos + (fread input s.pos 4096).length) 4096
  have l1 := length_store (fread input s.pos 4096) s.blockL (by omega)
  have l2 := length_store
    (fread input (s.pos + (fread input s.pos 4096).length) 4096) s.blockR (by omega)
  rw [hL] at l1
  rw [hR] at l2
  cases operation <;>
    simp only [loopBody, fwrite, BLOCK_SIZE, List.length_map, l1, l2, List.append_assoc,
      true_and] <;>
    refine ⟨_, rfl, ?_⟩ <;>
    simp only [List.length_append, List.length_take, List.length_map, l1, l2] <;>
    omega

/-- One iteration whose two reads are complete emits the transformed pair. -/
theorem loopBody_full (operation : operation_t) (input : List Byte) (s : LoopState)
    (hL : s.blockL.length = 4096) (hR : s.blockR.length = 4096)
    (hin : s.pos + 8192 ≤ input.length) :
    (loopBody operation input s).pos = s.pos + 8192 ∧
    (loopBody operation input s).out = s.out ++
      transformPair operation (fread input s.pos 4096) (fread input (s.pos + 4096) 4096) := by
  have g1 : (fread input s.pos 4096).length = 4096 := length_fread _ _ _ (by omega)
  have g2 : (fread input (s.pos + 4096) 4096).length = 4096 :=
    length_fread _ _ _ (by omega)
  have s1 : store (fread input s.pos 4096) s.blockL = fread input s.pos 4096 :=
    store_full _ _ (by omega)
  have s2 : store (fread input (s.pos + 4096) 4096) s.blockR =
      fread input (s.pos + 4096) 4096 := store_full _ _ (by omega)
  have t1 : (fread input s.pos 4096).take 4096 = fread input s.pos 4096 :=
    List.take_of_length_le (by omega)
  have t2 : (fread input (s.pos + 4096) 4096).take 4096 =
      fread input (s.pos + 4096) 4096 := List.take_of_length_le (by omega)
  have m1 : ((fread input s.pos 4096).map bitNot).take 4096 =
      (fread input s.pos 4096).map bitNot :=
    List.take_of_length_le (by rw [List.length_map]; omega)
  have m2 : ((fread input (s.pos + 4096) 4096).map bitNot).take 4096 =
      (fread input (s.pos + 4096) 4096).map bitNot :=
    List.take_of_length_le (by rw [List.length_map]; omega)
  cases operation <;>
    simp only [loopBody, fwrite, BLOCK_SIZE, g1, g2, s1, s2, t1, t2, m1, m2, transformPair,
      List.append_assoc, and_true]

theorem iterate_any (operation : operation_t) (input : List Byte) (s : LoopState)
    (hL : s.blockL.length = 4096) (hR : s.blockR.length = 4096) (k : Nat) :
    ((loopBody operation input)^[k] s).blockL.length = 4096 ∧
    ((loopBody operation input)^[k] s).blockR.length = 4096 ∧
    ∃ X, ((loopBody operation input)^[k] s).out = s.out ++ X ∧ X.length = 8192 * k := by
  induction k with
  | zero => exact ⟨hL, hR, [], by simp, rfl⟩
  | succ k ih =>
    obtain ⟨iL, iR, X, hX, hXl⟩ := ih
    rw [Function.iterate_succ_apply']
    obtain ⟨bL, bR, Y, hY, hYl⟩ := loopBody_any operation input _ iL iR
    refine ⟨bL, bR, X ++ Y, ?_, ?_⟩
    · rw [hY, hX, List.append_assoc]
    · rw [List.length_append, hXl, hYl]
      omega

theorem iterate_full (operation : operation_t) (input : List Byte) (s : LoopState)
    (hL : s.blockL.length = 4096) (hR : s.blockR.length = 4096) (k : Nat)
    (hin : s.pos + 8192 * k ≤ input.length) :
    ((loopBody operation input)^[k] s).pos = s.pos + 8192 * k ∧
    ((loopBody operation input)^[k] s).out = s.out ++
      (List.range k).flatMap (fun j =>
        transformPair operation (fread input (s.pos + 8192 * j) 4096)
          (fread input (s.pos + 8192 * j + 4096) 4096)) := by
  induction k with
  | zero => simp
  | succ k ih =>
    obtain ⟨hp, ho⟩ := ih (by omega)
    obtain ⟨iL, iR, _⟩ := iterate_any operation input s hL hR k
    rw [Function.iterate_succ_apply']
    obtain ⟨bp, bo⟩ := loopBody_full operation input _ iL iR (by omega)
    refine ⟨by omega, ?_⟩
    rw [bo, ho, hp, List.range_succ, List.flatMap_append, List.append_assoc]
    simp

/-! ## The conversion -/

theorem sizeof_dsf_header_t_eq : sizeof_dsf_header_t = 92 := rfl

theorem length_fread_header (input : List Byte) (h : 92 ≤ input.length) :
    (fread input 0 92).length = 92 := length_fread input 0 92 (by omega)

theorem convert_truncated (env : Env) (operation : operation_t) (input : List Byte)
    (h : input.length < 92) :
    convert env operation input =
      { status := 1, output := some [], diag := some .incompleteHeader } := by
  have hl : (fread input 0 92).length ≠ 92 := by
    simp only [fread, List.length_take, List.length_drop]
    omega
  simp only [convert, sizeof_dsf_header_t_eq, hl, ne_eq, not_false_eq_true, if_true]

theorem convert_invalid (env : Env) (operation : operation_t) (input : List Byte)
    (h : 92 ≤ input.length) (d : Diag)
    (hv : validate (dsf_header_t.ofBytes (fread input 0 92)) = some d) :
    convert env operation input = { status := 1, output := some [], diag := some d } := by
  have hl := length_fread_header input h
  simp only [convert, sizeof_dsf_header_t_eq, hl, ne_eq, not_true_eq_false, if_false, hv]

theorem length_loopEntry (env : Env) (out : List Byte) :
    (loopEntry env out).blockL.length = 4096 ∧ (loopEntry env out).blockR.length = 4096 := by
  simp only [loopEntry, List.length_map, List.length_range, BLOCK_SIZE, and_self]

theorem outcome_metadata_split (A : List Byte) (B : Nat) (m : MetadataRead) :
    m ≠ .segv →
    (if m = .segv then ({ status := 139, output := some [], diag := none } : Outcome)
     else
      { status := 0
        output := some (match m with
          | .buffer chunk => A ++ List.take B chunk
          | _ => A)
        diag := none }) =
    { status := 0
      output := some (A ++ match m with
        | .buffer chunk => List.take B chunk
        | _ => [])
      diag := none } := by
  intro hm
  cases m with
  | null => simp only [reduceCtorEq, if_false, List.append_nil]
  | buffer bytes => simp only [reduceCtorEq, if_false]
  | segv => exact absurd rfl hm

/-- A process killed while it reads the metadata leaves an empty output. -/
theorem convert_segv (env : Env) (operation : operation_t) (input : List Byte)
    (h : 92 ≤ input.length)
    (hv : validate (dsf_header_t.ofBytes (fread input 0 92)) = none)
    (hk : readMetadata env (dsf_header_t.ofBytes (fread input 0 92)) input = .segv) :
    convert env operation input = { status := 139, output := some [], diag := none } := by
  have hl := length_fread_header input h
  unfold convert
  simp only [sizeof_dsf_header_t_eq, hl, ne_eq, not_true_eq_false, if_false, hv]
  exact if_pos hk

/-- A header that passes the checks leads to: header, blocks, metadata,
unless the process is killed while it reads the metadata. -/
theorem convert_valid (env : Env) (operation : operation_t) (input : List Byte)
    (h : 92 ≤ input.length)
    (hv : validate (dsf_header_t.ofBytes (fread input 0 92)) = none)
    (hk : readMetadata env (dsf_header_t.ofBytes (fread input 0 92)) input ≠ .segv) :
    convert env operation input =
      { status := 0
        output := some
          (((loopBody operation input)^[(numBlocks (dsf_header_t.ofBytes (fread input 0 92)) + 1) / 2]
              (loopEntry env (fread input 0 92))).out ++
            metadataOut env (dsf_header_t.ofBytes (fread input 0 92)) input)
        diag := none } := by
  have hl := length_fread_header input h
  have hb := toBytes_ofBytes _ hl
  have ht : (fread input 0 92).take 92 = fread input 0 92 :=
    List.take_of_length_le (by omega)
  have hloop := blockLoop_eq_iterate operation input
    (numBlocks (dsf_header_t.ofBytes (fread input 0 92)))
    (by unfold numBlocks BLOCK_SIZE; omega) _ 0 (loopEntry env (fread input 0 92))
    (by rw [Nat.sub_zero])
  simp only [convert, sizeof_dsf_header_t_eq, hl, ne_eq, not_true_eq_false, if_false, hv,
    fwrite, hb, ht, List.nil_append]
  rw [hloop]
  unfold metadataOut
  exact outcome_metadata_split _ _ _ hk

theorem readHeader_eq (input : List Byte) :
    readHeader input = dsf_header_t.ofBytes (fread input 0 92) := rfl

/-! ### The metadata allocation -/

theorem malloc_of_le (env : Env) (input : List Byte) (size : Nat)
    (hle : size ≤ input.length) (hlt : size < 2 ^ 63) : malloc env input size = true := by
  simp only [malloc, decide_eq_true hlt, decide_eq_true hle, Bool.true_or, Bool.and_self]

theorem malloc_lt (env : Env) (input : List Byte) (size : Nat)
    (h : malloc env input size = true) : size < 2 ^ 63 := by
  simp only [malloc, Bool.and_eq_true, decide_eq_true_eq] at h
  exact h.1

theorem malloc_of_ge (env : Env) (input : List Byte) (size : Nat)
    (h : 2 ^ 63 ≤ size) : malloc env input size = false := by
  have hn : ¬ size < 2 ^ 63 := by omega
  simp only [malloc, decide_eq_false hn, Bool.false_and]

theorem readMetadata_zero (env : Env) (h : dsf_header_t) (input : List Byte)
    (h0 : h.dsd_chunk.metadata_ptr = 0) : readMetadata env h input = .null := by
  unfold readMetadata
  exact if_neg (not_not.mpr h0)

theorem readMetadata_buffer (env : Env) (h : dsf_header_t) (input : List Byte)
    (h0 : h.dsd_chunk.metadata_ptr ≠ 0)
    (hm : malloc env input (metadataLength h) = true) :
    readMetadata env h input =
      .buffer (store
        (fread input (fseek sizeof_dsf_header_t h.dsd_chunk.metadata_ptr) (metadataLength h))
        ((List.range (metadataLength h)).map env.heap)) := by
  unfold readMetadata
  rw [if_pos h0]
  exact if_pos hm

theorem readMetadata_segv (env : Env) (h : dsf_header_t) (input : List Byte)
    (h0 : h.dsd_chunk.metadata_ptr ≠ 0)
    (hm : malloc env input (metadataLength h) = false)
    (hg : fread input (fseek sizeof_dsf_header_t h.dsd_chunk.metadata_ptr)
      (metadataLength h) ≠ []) :
    readMetadata env h input = .segv := by
  unfold readMetadata
  rw [if_pos h0]
  have hm2 : ¬ malloc env input (metadataLength h) = true := by rw [hm]; decide
  exact (if_neg hm2).trans (if_neg hg)

theorem readMetadata_ne_segv (env : Env) (h : dsf_header_t) (input : List Byte)
    (hm : MetadataAllocated env h input) : readMetadata env h input ≠ .segv := by
  by_cases h0 : h.dsd_chunk.metadata_ptr = 0
  · rw [readMetadata_zero env h input h0]
    exact fun e => MetadataRead.noConfusion e
  · cases hm with
    | inl h1 => exact absurd h1 h0
    | inr h1 =>
      rw [readMetadata_buffer env h input h0 h1]
      exact fun e => MetadataRead.noConfusion e
theorem main_eq_convert (env : Env) (a0 arg a2 a3 : String) (input : List Byte)
    (h : readOperation arg ≠ .OP_INVALID) :
    dsfutil.main env [a0, arg, a2, a3] (some input) true =
      convert env (readOperation arg) input := by
  simp only [dsfutil.main, h, if_false, if_true]

theorem readOperation_swapch : readOperation "swapch" = .OP_SWAP_CHANNELS := by decide

theorem readOperation_lisolate : readOperation "lisolate" = .OP_LEFT_ISOLATE := by decide

theorem readOperation_risolate : readOperation "risolate" = .OP_RIGHT_ISOLATE := by decide

theorem readOperation_linvert : readOperation "linvert" = .OP_LEFT_INVERT := by decide

theorem readOperation_rinvert : readOperation "rinvert" = .OP_RIGHT_INVERT := by decide

theorem readOperation_invert : readOperation "invert" = .OP_INVERT := by decide

theorem data_length_lt (input : List Byte) :
    (readHeader input).data_chunk.length < 2 ^ 64 := by
  have h := leVal_lt (field (fread input 0 92) 84 8)
  have hl : (field (fread input 0 92) 84 8).length ≤ 8 := by
    simp only [field, List.length_take]
    omega
  have : 256 ^ (field (fread input 0 92) 84 8).length ≤ 256 ^ 8 :=
    Nat.pow_le_pow_right (by decide) hl
  have e : (256 : Nat) ^ 8 = 2 ^ 64 := by norm_num
  rw [readHeader_eq]
  simp only [dsf_header_t.ofBytes]
  omega

theorem numBlocks_of_payload (h : dsf_header_t) (n : Nat)
    (hlt : h.data_chunk.length < 2 ^ 64) (hd : h.data_chunk.length = 12 + 8192 * n) :
    (numBlocks h + 1) / 2 = n := by
  unfold numBlocks
  simp only [sizeof_data_chunk_t, BLOCK_SIZE]
  omega

theorem length_transformPair (operation : operation_t) (L R : List Byte)
    (hL : L.length = 4096) (hR : R.length = 4096) :
    (transformPair operation L R).length = 8192 := by
  cases operation <;> simp [transformPair, hL, hR]

theorem pairsOut_succ (operation : operation_t) (input : List Byte) (pos n : Nat) :
    pairsOut operation input pos (n + 1) =
      pairsOut operation input pos n ++
        transformPair operation (fread input (pos + 8192 * n) 4096)
          (fread input (pos + 8192 * n + 4096) 4096) := by
  simp only [pairsOut, List.range_succ, List.flatMap_append, List.flatMap_cons,
    List.flatMap_nil, List.append_nil]

theorem length_pairsOut (operation : operation_t) (input : List Byte) (pos n : Nat)
    (h : pos + 8192 * n ≤ input.length) :
    (pairsOut operation input pos n).length = 8192 * n := by
  induction n with
  | zero => simp [pairsOut]
  | succ n ih =>
    rw [pairsOut_succ, List.length_append, ih (by omega),
      length_transformPair _ _ _ (length_fread _ _ _ (by omega))
        (length_fread _ _ _ (by omega))]
    omega

/-- A conversion whose header passes the checks and announces `n` block
pairs, on an input that holds them: the output is the header, the
transformed pairs, and the metadata. -/
theorem convert_full (env : Env) (operation : operation_t) (input : List Byte) (n : Nat)
    (hlen : 92 + 8192 * n ≤ input.length)
    (hv : validate (readHeader input) = none)
    (hd : (readHeader input).data_chunk.length = 12 + 8192 * n)
    (hns : readMetadata env (readHeader input) input ≠ .segv) :
    convert env operation input =
      { status := 0
        output := some (fread input 0 92 ++ pairsOut operation input 92 n ++
          metadataOut env (readHeader input) input)
        diag := none } := by
  have hk := numBlocks_of_payload (readHeader input) n (data_length_lt input) hd
  rw [readHeader_eq] at hv hk hns
  rw [convert_valid env operation input (by omega) hv hns, hk]
  obtain ⟨hL, hR⟩ := length_loopEntry env (fread input 0 92)
  have hf := (iterate_full operation input (loopEntry env (fread input 0 92)) hL hR n
    (by simp only [loopEntry, sizeof_dsf_header_t_eq]; omega)).2
  rw [hf]
  rfl

theorem split3 (H P M : List Byte) (a b : Nat) (hH : H.length = a) (hP : P.length = b) :
    (H ++ P ++ M).take a = H ∧ ((H ++ P ++ M).drop a).take b = P ∧
      (H ++ P ++ M).drop (a + b) = M := by
  subst hH hP
  refine ⟨?_, ?_, ?_⟩
  · rw [List.append_assoc, List.take_left]
  · rw [List.append_assoc, List.drop_left, List.take_left]
  · rw [← List.drop_drop, List.append_assoc, List.drop_left, List.drop_left]

theorem length_sampleHeader (a b c : Nat) : (sampleHeader a b c).toBytes.length = 92 := by
  simp [dsf_header_t.toBytes, sampleHeader, length_leBytes]

theorem fread_header_append (H X : List Byte) (hH : H.length = 92) :
    fread (H ++ X) 0 92 = H := by
  rw [fread, List.drop_zero, List.take_left' hH]

theorem readHeader_append (H X : List Byte) (hH : H.length = 92) :
    readHeader (H ++ X) = dsf_header_t.ofBytes H := by
  rw [readHeader_eq, fread_header_append H X hH]

/-- The four blocks of a container with a 92-byte header and two block pairs. -/
theorem four_blocks (H A B C D : List Byte) (hH : H.length = 92) (hA : A.length = 4096)
    (hB : B.length = 4096) (hC : C.length = 4096) (hD : D.length = 4096) :
    ((H ++ (A ++ B ++ C ++ D)).drop 92).take 4096 = A ∧
    ((H ++ (A ++ B ++ C ++ D)).drop (92 + 4096)).take 4096 = B ∧
    ((H ++ (A ++ B ++ C ++ D)).drop (92 + 8192)).take 4096 = C ∧
    ((H ++ (A ++ B ++ C ++ D)).drop (92 + 8192 + 4096)).take 4096 = D := by
  refine ⟨?_, ?_, ?_, ?_⟩
  · rw [List.drop_left' hH, List.append_assoc, List.append_assoc, List.take_left' hA]
  · rw [← List.drop_drop, List.drop_left' hH, List.append_assoc, List.append_assoc,
      List.drop_left' hA, List.take_left' hB]
  · have e : (H ++ (A ++ B ++ C ++ D)) = (H ++ A ++ B) ++ (C ++ D) := by
      simp only [List.append_assoc]
    rw [e, List.drop_left' (by simp only [List.length_append, hH, hA, hB]),
      List.take_left' hC]
  · have e : (H ++ (A ++ B ++ C ++ D)) = (H ++ A ++ B ++ C) ++ (D ++ []) := by
      simp only [List.append_assoc, List.append_nil]
    rw [e, List.drop_left' (by simp only [List.length_append, hH, hA, hB, hC]),
      List.take_left' hD]

theorem length_block00 : block00.length = 4096 := List.length_replicate _ _

theorem length_blockFF : blockFF.length = 4096 := List.length_replicate _ _

theorem length_scenarioInput : scenarioInput.length = 92 + 8192 * 2 := by
  simp only [scenarioInput, List.length_append, length_sampleHeader, length_block00,
    length_blockFF]

theorem validate_scenarioInput : validate (readHeader scenarioInput) = none := by
  rw [scenarioInput, readHeader_append _ _ (length_sampleHeader _ _ _)]
  decide

theorem data_length_scenarioInput :
    (readHeader scenarioInput).data_chunk.length = 12 + 8192 * 2 := by
  rw [scenarioInput, readHeader_append _ _ (length_sampleHeader _ _ _)]
  decide

theorem bitNot_val (b : Byte) : (bitNot b).val = 255 - b.val := by
  have := b.isLt
  simp only [bitNot]
  omega

theorem map_bitNot_block00 : block00.map bitNot = blockFF := by
  rw [block00, blockFF, List.map_replicate]
  rfl

theorem scenario_blocks :
    (scenarioInput.drop 92).take 4096 = block00 ∧
    (scenarioInput.drop (92 + 4096)).take 4096 = blockFF ∧
    (scenarioInput.drop (92 + 8192)).take 4096 = block00 ∧
    (scenarioInput.drop (92 + 8192 + 4096)).take 4096 = blockFF :=
  four_blocks _ _ _ _ _ (length_sampleHeader _ _ _) length_block00 length_blockFF
    length_block00 length_blockFF

/-- The payload region of the output of a conversion that passes the checks
and holds its `n` block pairs. -/
theorem output_payload (env : Env) (a0 arg a2 a3 : String) (input : List Byte) (n : Nat)
    (harg : readOperation arg ≠ .OP_INVALID)
    (hlen : 92 + 8192 * n ≤ input.length)
    (hv : validate (readHeader input) = none)
    (hd : (readHeader input).data_chunk.length = 12 + 8192 * n)
    (hns : readMetadata env (readHeader input) input ≠ .segv) :
    ∃ out, (dsfutil.main env [a0, arg, a2, a3] (some input) true).output = some out ∧
      (out.drop 92).take (8192 * n) = pairsOut (readOperation arg) input 92 n := by
  rw [main_eq_convert env a0 arg a2 a3 input harg,
    convert_full env (readOperation arg) input n hlen hv hd hns]
  exact ⟨_, rfl, (split3 _ _ _ 92 (8192 * n) (length_fread_header input (by omega))
    (length_pairsOut _ _ _ _ hlen)).2.1⟩

/-! ## The validator -/

theorem strncmp_DSD (t : List Byte) (ht : t.length = 4) :
    strncmp t lit_DSD 4 = 0 ↔ t = tag_DSD :=
  strncmp_eq_zero_iff 4 t lit_DSD ht (by simp [lit_DSD]) (by simp [lit_DSD]; decide)

theorem strncmp_fmt (t : List Byte) (ht : t.length = 4) :
    strncmp t lit_fmt 4 = 0 ↔ t = tag_fmt :=
  strncmp_eq_zero_iff 4 t lit_fmt ht (by simp [lit_fmt]) (by simp [lit_fmt]; decide)

theorem strncmp_data (t : List Byte) (ht : t.length = 4) :
    strncmp t lit_data 4 = 0 ↔ t = tag_data :=
  strncmp_eq_zero_iff 4 t lit_data ht (by simp [lit_data]) (by simp [lit_data]; decide)

theorem tag_lengths (input : List Byte) (h : 92 ≤ input.length) :
    (readHeader input).dsd_chunk.header.length = 4 ∧
    (readHeader input).fmt_chunk.header.length = 4 ∧
    (readHeader input).data_chunk.header.length = 4 := by
  have hl := length_fread_header input h
  rw [readHeader_eq]
  exact ⟨length_field _ 0 4 (by omega), length_field _ 28 4 (by omega),
    length_field _ 80 4 (by omega)⟩

/-- A chain of seven guarded errors reports the error of the first check
that does not pass. -/
theorem first_failure_chain {α β : Type} (Q1 Q2 Q3 Q4 Q5 Q6 Q7 : Prop)
    [Decidable Q1] [Decidable Q2] [Decidable Q3] [Decidable Q4] [Decidable Q5]
    [Decidable Q6] [Decidable Q7]
    (P1 P2 P3 P4 P5 P6 P7 : Prop)
    [Decidable P1] [Decidable P2] [Decidable P3] [Decidable P4] [Decidable P5]
    [Decidable P6] [Decidable P7]
    (d1 d2 d3 d4 d5 d6 d7 : α) (k : α → β)
    (q1 : Q1 ↔ ¬ P1) (q2 : Q2 ↔ ¬ P2) (q3 : Q3 ↔ ¬ P3) (q4 : Q4 ↔ ¬ P4)
    (q5 : Q5 ↔ ¬ P5) (q6 : Q6 ↔ ¬ P6) (q7 : Q7 ↔ ¬ P7) :
    (if Q1 then some d1 else if Q2 then some d2 else if Q3 then some d3
      else if Q4 then some d4 else if Q5 then some d5 else if Q6 then some d6
      else if Q7 then some d7 else none).map k =
    (([(decide P1, k d1), (decide P2, k d2), (decide P3, k d3), (decide P4, k d4),
        (decide P5, k d5), (decide P6, k d6), (decide P7, k d7)] :
        List (Bool × β)).find? (fun c => !c.1)).map (fun c => c.2) := by
  simp only [q1, q2, q3, q4, q5, q6, q7]
  by_cases p1 : P1
  swap
  · simp [p1]
  by_cases p2 : P2
  swap
  · simp [p1, p2]
  by_cases p3 : P3
  swap
  · simp [p1, p2, p3]
  by_cases p4 : P4
  swap
  · simp [p1, p2, p3, p4]
  by_cases p5 : P5
  swap
  · simp [p1, p2, p3, p4, p5]
  by_cases p6 : P6
  swap
  · simp [p1, p2, p3, p4, p5, p6]
  by_cases p7 : P7
  swap
  · simp [p1, p2, p3, p4, p5, p6, p7]
  simp [p1, p2, p3, p4, p5, p6, p7]

/-- The diagnostic of the program is the error of the lowest-numbered
failing check of the specification. -/
theorem validate_kind (h : dsf_header_t) (h1 : h.dsd_chunk.header.length = 4)
    (h2 : h.fmt_chunk.header.length = 4) (h3 : h.data_chunk.header.length = 4) :
    (validate h).map Diag.kind = specValidate h := by
  have t1 := strncmp_DSD _ h1
  have t2 := strncmp_fmt _ h2
  have t3 := strncmp_data _ h3
  have e1 : sizeof_dsd_chunk_t = 28 := rfl
  have e2 : sizeof_fmt_chunk_t = 52 := rfl
  have e3 : BLOCK_SIZE = 4096 := rfl
  unfold validate specValidate specChecks
  refine first_failure_chain _ _ _ _ _ _ _ _ _ _ _ _ _ _ _ _ _ _ _ _ _ Diag.kind
    ?_ ?_ ?_ ?_ ?_ ?_ ?_
  · rw [ne_eq, t1]
  · rw [e1]
  · rw [ne_eq, t2]
  · rw [e2]
  · rw [e3]
    constructor
    · intro hq hp
      omega
    · intro hp
      omega
  · rw [ne_eq, t3]
  · constructor
    · intro hq hp
      omega
    · intro hp
      omega

/-! ## `dsfswap` and `dsfutil` -/

theorem dsfswap_validate_eq (h : dsf_header_t) : dsfswap.validate h = validate h := rfl

theorem dsfswap_readMetadata_eq (env : Env) (h : dsf_header_t) (input : List Byte) :
    dsfswap.readMetadata env h input = readMetadata env h input := by
  unfold dsfswap.readMetadata readMetadata metadataLength
  rfl

theorem dsfswap_loopBody_eq (input : List Byte) (s : LoopState) :
    dsfswap.loopBody input s = loopBody .OP_SWAP_CHANNELS input s := rfl

theorem dsfswap_blockLoop_eq_iterate (input : List Byte) (num_blocks : Nat)
    (hn : num_blocks < 2 ^ 52) :
    ∀ (k i : Nat) (s : LoopState), (num_blocks + 1 - i) / 2 = k →
      dsfswap.blockLoop input num_blocks hn i s = (dsfswap.loopBody input)^[k] s := by
  intro k
  induction k with
  | zero =>
    intro i s h
    rw [dsfswap.blockLoop]
    have : ¬ i < num_blocks := by omega
    simp [this]
  | succ k ih =>
    intro i s h
    rw [dsfswap.blockLoop]
    have hi : i < num_blocks := by omega
    have hw : (i + 2) % 2 ^ 64 = i + 2 := Nat.mod_eq_of_lt (by omega)
    rw [if_pos hi, hw, Function.iterate_succ_apply]
    exact ih (i + 2) _ (by omega)

theorem dsfswap_blockLoop_eq (input : List Byte) (num_blocks : Nat)
    (hn : num_blocks < 2 ^ 52) (s : LoopState) :
    dsfswap.blockLoop input num_blocks hn 0 s =
      blockLoop .OP_SWAP_CHANNELS input num_blocks hn 0 s := by
  rw [dsfswap_blockLoop_eq_iterate input num_blocks hn _ 0 s (by rw [Nat.sub_zero]),
    blockLoop_eq_iterate .OP_SWAP_CHANNELS input num_blocks hn _ 0 s (by rw [Nat.sub_zero])]
  rfl

theorem dsfswap_convert_eq (env : Env) (input : List Byte) :
    dsfswap.convert env input = convert env .OP_SWAP_CHANNELS input := by
  unfold dsfswap.convert convert
  simp only [dsfswap_validate_eq, dsfswap_readMetadata_eq, dsfswap_blockLoop_eq]
  unfold numBlocks metadataLength
  rfl

/-! ## Shape of the output -/

theorem numBlocks_eq (h : dsf_header_t) :
    numBlocks h = ((h.data_chunk.length + 2 ^ 64 - 12) % 2 ^ 64) / 4096 := by
  unfold numBlocks
  rfl

theorem numBlocks_lt (h : dsf_header_t) : numBlocks h < 2 ^ 52 := by
  rw [numBlocks_eq]
  omega

theorem metadataLength_eq (h : dsf_header_t) :
    metadataLength h = (h.dsd_chunk.file_size + 2 ^ 64 - h.dsd_chunk.metadata_ptr) % 2 ^ 64 := by
  unfold metadataLength
  rfl

theorem file_size_lt (input : List Byte) :
    (readHeader input).dsd_chunk.file_size < 2 ^ 64 := by
  have h := leVal_lt (field (fread input 0 92) 12 8)
  have hl : (field (fread input 0 92) 12 8).length ≤ 8 := by
    simp only [field, List.length_take]
    omega
  have : 256 ^ (field (fread input 0 92) 12 8).length ≤ 256 ^ 8 :=
    Nat.pow_le_pow_right (by decide) hl
  have e : (256 : Nat) ^ 8 = 2 ^ 64 := by norm_num
  rw [readHeader_eq]
  simp only [dsf_header_t.ofBytes]
  omega

/-- Every conversion whose header passes the checks writes the header, then
8192 bytes for each of the `ceil(num_blocks / 2)` iterations, then the
metadata. -/
theorem convert_shape (env : Env) (operation : operation_t) (input : List Byte)
    (hlen : 92 ≤ input.length) (hv : validate (readHeader input) = none)
    (hns : readMetadata env (readHeader input) input ≠ .segv) :
    ∃ X, convert env operation input =
        { status := 0
          output := some (fread input 0 92 ++ X ++ metadataOut env (readHeader input) input)
          diag := none } ∧
      X.length = 8192 * ((numBlocks (readHeader input) + 1) / 2) := by
  rw [readHeader_eq] at hv
  have hns2 := hns
  rw [readHeader_eq] at hns2
  obtain ⟨hL, hR⟩ := length_loopEntry env (fread input 0 92)
  obtain ⟨_, _, X, hX, hXl⟩ := iterate_any operation input (loopEntry env (fread input 0 92))
    hL hR ((numBlocks (readHeader input) + 1) / 2)
  refine ⟨X, ?_, hXl⟩
  rw [convert_valid env operation input hlen hv hns2, ← readHeader_eq, hX]
  rfl

theorem metadataOut_zero (env : Env) (h : dsf_header_t) (input : List Byte)
    (h0 : h.dsd_chunk.metadata_ptr = 0) : metadataOut env h input = [] := by
  unfold metadataOut
  rw [readMetadata_zero env h input h0]

theorem metadataOut_buffer (env : Env) (h : dsf_header_t) (input : List Byte)
    (h0 : h.dsd_chunk.metadata_ptr ≠ 0)
    (hm : malloc env input (metadataLength h) = true) :
    metadataOut env h input =
      (store
        (fread input (fseek sizeof_dsf_header_t h.dsd_chunk.metadata_ptr) (metadataLength h))
        ((List.range (metadataLength h)).map env.heap)).take (metadataLength h) := by
  unfold metadataOut
  rw [readMetadata_buffer env h input h0 hm]

theorem length_metadataOut_le (env : Env) (h : dsf_header_t) (input : List Byte) :
    (metadataOut env h input).length ≤ metadataLength h := by
  unfold metadataOut
  split
  · rw [List.length_take]
    exact Nat.min_le_left _ _
  · exact Nat.zero_le _

theorem length_metadataOut (env : Env) (h : dsf_header_t) (input : List Byte)
    (h0 : h.dsd_chunk.metadata_ptr ≠ 0)
    (hm : malloc env input (metadataLength h) = true) :
    (metadataOut env h input).length = metadataLength h := by
  rw [metadataOut_buffer env h input h0 hm]
  have hg : ((List.range (metadataLength h)).map env.heap).length = metadataLength h := by
    rw [List.length_map, List.length_range]
  have hs := length_store
    (fread input (fseek sizeof_dsf_header_t h.dsd_chunk.metadata_ptr) (metadataLength h))
    ((List.range (metadataLength h)).map env.heap)
    (by rw [hg]; exact length_fread_le _ _ _)
  rw [List.length_take, hs, hg, Nat.min_self]

/-- The metadata written is the tail of the input from `metadata_ptr` on,
when the input has the size the header records. -/
theorem metadataOut_eq_drop (env : Env) (h : dsf_header_t) (input : List Byte)
    (h0 : h.dsd_chunk.metadata_ptr ≠ 0)
    (hle : h.dsd_chunk.metadata_ptr ≤ h.dsd_chunk.file_size)
    (hfs : input.length = h.dsd_chunk.file_size) (hfile : input.length < 2 ^ 63) :
    metadataOut env h input = input.drop h.dsd_chunk.metadata_ptr := by
  have hml : metadataLength h = h.dsd_chunk.file_size - h.dsd_chunk.metadata_ptr := by
    rw [metadataLength_eq]
    omega
  have hseek : fseek sizeof_dsf_header_t h.dsd_chunk.metadata_ptr = h.dsd_chunk.metadata_ptr := by
    rw [fseek, if_pos (by omega)]
  have hgot : fread input h.dsd_chunk.metadata_ptr
      (h.dsd_chunk.file_size - h.dsd_chunk.metadata_ptr) = input.drop h.dsd_chunk.metadata_ptr := by
    rw [fread]
    exact List.take_of_length_le (by rw [List.length_drop]; omega)
  have hdl : (input.drop h.dsd_chunk.metadata_ptr).length =
      h.dsd_chunk.file_size - h.dsd_chunk.metadata_ptr := by
    rw [List.length_drop, hfs]
  have hmal : malloc env input (metadataLength h) = true :=
    malloc_of_le env input _ (by rw [hml]; omega) (by rw [hml]; omega)
  rw [metadataOut_buffer env h input h0 hmal, hml, hseek, hgot]
  rw [store_full _ _ (by rw [hdl, List.length_map, List.length_range])]
  exact List.take_of_length_le (by rw [hdl])

/-- The first element of a list that satisfies a predicate. -/
theorem find?_first {α : Type} (p : α → Bool) :
    ∀ (l : List α) (i : Nat) (c : α), l[i]? = some c → p c = true →
      (∀ j c', j < i → l[j]? = some c' → p c' = false) → l.find? p = some c := by
  intro l
  induction l with
  | nil => intro i c h; simp at h
  | cons a l ih =>
    intro i c h hp hbefore
    cases i with
    | zero =>
      simp only [List.getElem?_cons_zero, Option.some.injEq] at h
      subst h
      simp [List.find?, hp]
    | succ i =>
      have ha : p a = false := hbefore 0 a (by omega) (by simp)
      simp only [List.getElem?_cons_succ] at h
      rw [List.find?, ha]
      exact ih i c h hp (fun j c' hj hc' => hbefore (j + 1) c' (by omega) (by simpa using hc'))

/-- The output of a run of `dsfutil` whose header passes the checks. -/
theorem main_shape (env : Env) (a0 arg a2 a3 : String) (input : List Byte)
    (harg : readOperation arg ≠ .OP_INVALID)
    (hlen : 92 ≤ input.length) (hv : validate (readHeader input) = none)
    (hns : readMetadata env (readHeader input) input ≠ .segv) :
    ∃ X, dsfutil.main env [a0, arg, a2, a3] (some input) true =
        { status := 0
          output := some (input.take 92 ++ X ++ metadataOut env (readHeader input) input)
          diag := none } ∧
      X.length = 8192 * ((numBlocks (readHeader input) + 1) / 2) := by
  rw [main_eq_convert env a0 arg a2 a3 input harg]
  exact convert_shape env (readOperation arg) input hlen hv hns

/-- The output of a run of `dsfswap` whose header passes the checks. -/
theorem dsfswap_main_shape (env : Env) (a0 a1 a2 : String) (input : List Byte)
    (hlen : 92 ≤ input.length) (hv : validate (readHeader input) = none)
    (hns : readMetadata env (readHeader input) input ≠ .segv) :
    ∃ X, dsfswap.main env [a0, a1, a2] (some input) true =
        { status := 0
          output := some (input.take 92 ++ X ++ metadataOut env (readHeader input) input)
          diag := none } ∧
      X.length = 8192 * ((numBlocks (readHeader input) + 1) / 2) := by
  simp only [dsfswap.main, if_true, dsfswap_convert_eq]
  exact convert_shape env .OP_SWAP_CHANNELS input hlen hv hns

theorem length_take_header (input : List Byte) (hlen : 92 ≤ input.length) :
    (input.take 92).length = 92 := by
  rw [List.length_take]
  omega

theorem metadataOut_of_ptr_eq_size (env : Env) (h : dsf_header_t) (input : List Byte)
    (he : h.dsd_chunk.metadata_ptr = h.dsd_chunk.file_size) :
    metadataOut env h input = [] := by
  apply List.eq_nil_of_length_eq_zero
  have hle := length_metadataOut_le env h input
  rw [metadataLength_eq, he] at hle
  omega

/-- A metadata pointer equal to the file size asks for no byte: the
allocation succeeds. -/
theorem allocated_of_ptr_eq_size (env : Env) (h : dsf_header_t) (input : List Byte)
    (he : h.dsd_chunk.metadata_ptr = h.dsd_chunk.file_size) :
    MetadataAllocated env h input := by
  have h0 : metadataLength h = 0 := by
    rw [metadataLength_eq, he]
    omega
  exact Or.inr (malloc_of_le env input _ (by rw [h0]; exact Nat.zero_le _)
    (by rw [h0]; exact Nat.pos_pow_of_pos 63 (by decide)))

/-- A metadata region that lies within the input file, whose size the
header records, asks for no more bytes than the file holds: the allocation
succeeds. -/
theorem allocated_within (env : Env) (h : dsf_header_t) (input : List Byte)
    (hle : h.dsd_chunk.metadata_ptr ≤ h.dsd_chunk.file_size)
    (hfs : input.length = h.dsd_chunk.file_size) (hfile : input.length < 2 ^ 63) :
    MetadataAllocated env h input := by
  have hml : metadataLength h = h.dsd_chunk.file_size - h.dsd_chunk.metadata_ptr := by
    rw [metadataLength_eq]
    omega
  exact Or.inr (malloc_of_le env input _ (by rw [hml]; omega) (by rw [hml]; omega))

/-! ## Running a conversion on the output of a conversion -/

theorem pairsOut_succ_front (operation : operation_t) (input : List Byte) (pos n : Nat) :
    pairsOut operation input pos (n + 1) =
      transformPair operation (fread input pos 4096) (fread input (pos + 4096) 4096) ++
        pairsOut operation input (pos + 8192) n := by
  simp only [pairsOut, List.range_succ_eq_map, List.flatMap_cons, List.flatMap_map,
    Nat.mul_zero, Nat.add_zero]
  congr 1
  apply List.flatMap_congr
  intro k _
  have e : pos + 8192 * k.succ = pos + 8192 + 8192 * k := by
    rw [Nat.succ_eq_add_one]
    omega
  rw [e]

theorem pairsOut_eq_mapPairs (operation : operation_t) (input : List Byte) :
    ∀ (n pos : Nat), pairsOut operation input pos n = mapPairs operation n (input.drop pos) := by
  intro n
  induction n with
  | zero => intro pos; rfl
  | succ n ih =>
    intro pos
    rw [pairsOut_succ_front, ih (pos + 8192), mapPairs, List.drop_drop, List.drop_drop]
    rfl

/-- The transformed pairs depend on the first `8192 * n` bytes only. -/
theorem mapPairs_append (operation : operation_t) :
    ∀ (n : Nat) (p q : List Byte), 8192 * n ≤ p.length →
      mapPairs operation n (p ++ q) = mapPairs operation n p := by
  intro n
  induction n with
  | zero => intro p q _; rfl
  | succ n ih =>
    intro p q h
    rw [mapPairs, mapPairs, List.take_append_of_le_length (by omega),
      List.drop_append_of_le_length (by omega), List.take_append_of_le_length
        (by rw [List.length_drop]; omega),
      List.drop_append_of_le_length (by omega),
      ih (p.drop 8192) q (by rw [List.length_drop]; omega)]

/-- The first pair of a payload that starts with two full blocks. -/
theorem mapPairs_blocks (operation : operation_t) (n : Nat) (X Y Z : List Byte)
    (hX : X.length = 4096) (hY : Y.length = 4096) :
    mapPairs operation (n + 1) (X ++ Y ++ Z) =
      transformPair operation X Y ++ mapPairs operation n Z := by
  have e1 : (X ++ Y ++ Z).take 4096 = X := by
    rw [List.append_assoc, List.take_left' hX]
  have e2 : ((X ++ Y ++ Z).drop 4096).take 4096 = Y := by
    rw [List.append_assoc, List.drop_left' hX, List.take_left' hY]
  have e3 : (X ++ Y ++ Z).drop 8192 = Z := by
    rw [List.drop_left' (by rw [List.length_append, hX, hY])]
  rw [mapPairs, e1, e2, e3]

/-- A payload of at least `8192 * (n + 1)` bytes starts with two full
blocks. -/
theorem payload_blocks (n : Nat) (p : List Byte) (h : 8192 * (n + 1) ≤ p.length) :
    p = p.take 4096 ++ (p.drop 4096).take 4096 ++ p.drop 8192 ∧
    (p.take 4096).length = 4096 ∧ ((p.drop 4096).take 4096).length = 4096 ∧
    8192 * n ≤ (p.drop 8192).length := by
  refine ⟨?_, ?_, ?_, ?_⟩
  · have h1 := List.take_append_drop 4096 p
    have h2 := List.take_append_drop 4096 (p.drop 4096)
    rw [List.drop_drop] at h2
    rw [List.append_assoc, h2, h1]
  · rw [List.length_take]
    omega
  · rw [List.length_take, List.length_drop]
    omega
  · rw [List.length_drop]
    omega

theorem length_mapPairs (operation : operation_t) :
    ∀ (n : Nat) (p : List Byte), 8192 * n ≤ p.length →
      (mapPairs operation n p).length = 8192 * n := by
  intro n
  induction n with
  | zero => intro p _; rfl
  | succ n ih =>
    intro p h
    obtain ⟨_, hL, hR, hrest⟩ := payload_blocks n p h
    rw [mapPairs, List.length_append, length_transformPair _ _ _ hL hR, ih _ hrest]
    omega

theorem bitNot_bitNot (b : Byte) : bitNot (bitNot b) = b := by
  apply Fin.ext
  rw [bitNot_val, bitNot_val]
  have := b.isLt
  omega

theorem map_bitNot_bitNot (l : List Byte) : (l.map bitNot).map bitNot = l := by
  rw [List.map_map]
  have : (bitNot ∘ bitNot) = id := funext bitNot_bitNot
  rw [this, List.map_id]

/-- Swapping twice gives back the payload. -/
theorem mapPairs_swap_swap :
    ∀ (n : Nat) (p : List Byte), 8192 * n ≤ p.length →
      mapPairs .OP_SWAP_CHANNELS n (mapPairs .OP_SWAP_CHANNELS n p) = p.take (8192 * n) := by
  intro n
  induction n with
  | zero => intro p _; rfl
  | succ n ih =>
    intro p h
    obtain ⟨_, hL, hR, hrest⟩ := payload_blocks n p h
    have e : 8192 * (n + 1) = 4096 + (4096 + 8192 * n) := by omega
    have inner : mapPairs .OP_SWAP_CHANNELS (n + 1) p =
        (p.drop 4096).take 4096 ++ p.take 4096 ++
          mapPairs .OP_SWAP_CHANNELS n (p.drop 8192) := rfl
    have outer : transformPair .OP_SWAP_CHANNELS ((p.drop 4096).take 4096) (p.take 4096) =
        p.take 4096 ++ (p.drop 4096).take 4096 := rfl
    rw [inner, mapPairs_blocks _ n _ _ _ hR hL, ih _ hrest, outer, e, List.take_add,
      List.take_add, List.drop_drop, List.append_assoc]

/-- Inverting twice gives back the payload. -/
theorem mapPairs_invert_invert :
    ∀ (n : Nat) (p : List Byte), 8192 * n ≤ p.length →
      mapPairs .OP_INVERT n (mapPairs .OP_INVERT n p) = p.take (8192 * n) := by
  intro n
  induction n with
  | zero => intro p _; rfl
  | succ n ih =>
    intro p h
    obtain ⟨_, hL, hR, hrest⟩ := payload_blocks n p h
    have e : 8192 * (n + 1) = 4096 + (4096 + 8192 * n) := by omega
    have inner : mapPairs .OP_INVERT (n + 1) p =
        (p.take 4096).map bitNot ++ ((p.drop 4096).take 4096).map bitNot ++
          mapPairs .OP_INVERT n (p.drop 8192) := rfl
    have outer : transformPair .OP_INVERT ((p.take 4096).map bitNot)
        (((p.drop 4096).take 4096).map bitNot) = p.take 4096 ++ (p.drop 4096).take 4096 := by
      rw [transformPair, map_bitNot_bitNot, map_bitNot_bitNot]
    rw [inner, mapPairs_blocks _ n _ _ _ (by rw [List.length_map]; exact hL)
        (by rw [List.length_map]; exact hR),
      ih _ hrest, outer, e, List.take_add, List.take_add, List.drop_drop, List.append_assoc]

/-- Isolating the left channel twice is isolating it once. -/
theorem mapPairs_lisolate_lisolate :
    ∀ (n : Nat) (p : List Byte), 8192 * n ≤ p.length →
      mapPairs .OP_LEFT_ISOLATE n (mapPairs .OP_LEFT_ISOLATE n p) =
        mapPairs .OP_LEFT_ISOLATE n p := by
  intro n
  induction n with
  | zero => intro p _; rfl
  | succ n ih =>
    intro p h
    obtain ⟨_, hL, _, hrest⟩ := payload_blocks n p h
    have inner : mapPairs .OP_LEFT_ISOLATE (n + 1) p =
        p.take 4096 ++ p.take 4096 ++ mapPairs .OP_LEFT_ISOLATE n (p.drop 8192) := rfl
    rw [inner, mapPairs_blocks _ n _ _ _ hL hL, ih _ hrest]
    rfl

/-- After isolating the left channel, the right block of every pair is its
left block. -/
theorem mapPairs_lisolate_blocks :
    ∀ (n : Nat) (p : List Byte), 8192 * n ≤ p.length → ∀ k, k < n →
      ((mapPairs .OP_LEFT_ISOLATE n p).drop (8192 * k + 4096)).take 4096 =
        ((mapPairs .OP_LEFT_ISOLATE n p).drop (8192 * k)).take 4096 := by
  intro n
  induction n with
  | zero => intro p _ k hk; omega
  | succ n ih =>
    intro p h k hk
    obtain ⟨_, hL, _, hrest⟩ := payload_blocks n p h
    have inner : mapPairs .OP_LEFT_ISOLATE (n + 1) p =
        p.take 4096 ++ p.take 4096 ++ mapPairs .OP_LEFT_ISOLATE n (p.drop 8192) := rfl
    rw [inner]
    cases k with
    | zero =>
      rw [Nat.mul_zero, Nat.zero_add, List.drop_zero, List.append_assoc,
        List.take_left' hL, List.drop_left' hL, List.take_left' hL]
    | succ k =>
      have hLL : (p.take 4096 ++ p.take 4096).length = 8192 := by
        rw [List.length_append, hL]
      have e1 : 8192 * (k + 1) + 4096 = 8192 + (8192 * k + 4096) := by omega
      have e2 : 8192 * (k + 1) = 8192 + 8192 * k := by omega
      rw [e1, e2, ← List.drop_drop, ← List.drop_drop (8192 * k), List.drop_left' hLL]
      exact ih _ hrest k (by omega)

/-- An allocation that succeeded succeeds again on every file that is at
least as long as the metadata written. -/
theorem allocated_of_output (env1 env2 : Env) (h : dsf_header_t) (input out : List Byte)
    (hm : MetadataAllocated env1 h input)
    (hout : (metadataOut env1 h input).length ≤ out.length) :
    MetadataAllocated env2 h out := by
  by_cases h0 : h.dsd_chunk.metadata_ptr = 0
  · exact Or.inl h0
  · cases hm with
    | inl h1 => exact absurd h1 h0
    | inr h1 =>
      rw [length_metadataOut env1 h input h0 h1] at hout
      exact Or.inr (malloc_of_le env2 out _ hout (malloc_lt env1 input _ h1))

/-- Two conversions in a row with the same operation: the second one reads
the header of the first input again and transforms the transformed pairs. -/
theorem convert_twice (env1 env2 : Env) (operation : operation_t) (input : List Byte)
    (n : Nat) (hlen : 92 + 8192 * n ≤ input.length)
    (hv : validate (readHeader input) = none)
    (hd : (readHeader input).data_chunk.length = 12 + 8192 * n)
    (hm : MetadataAllocated env1 (readHeader input) input) :
    ∃ out1 out2,
      convert env1 operation input = { status := 0, output := some out1, diag := none } ∧
      convert env2 operation out1 = { status := 0, output := some out2, diag := none } ∧
      validate (readHeader out1) = none ∧
      (out1.drop 92).take (8192 * n) = mapPairs operation n (input.drop 92) ∧
      (out2.drop 92).take (8192 * n) =
        mapPairs operation n (mapPairs operation n (input.drop 92)) := by
  have hH : (fread input 0 92).length = 92 := length_fread_header input (by omega)
  have hP := length_pairsOut operation input 92 n hlen
  have c1 := convert_full env1 operation input n hlen hv hd
    (readMetadata_ne_segv env1 _ input hm)
  obtain ⟨_, s2, _⟩ := split3 (fread input 0 92) (pairsOut operation input 92 n)
    (metadataOut env1 (readHeader input) input) 92 (8192 * n) hH hP
  have hr : readHeader (fread input 0 92 ++ pairsOut operation input 92 n ++
      metadataOut env1 (readHeader input) input) = readHeader input := by
    rw [List.append_assoc, readHeader_append _ _ hH, readHeader_eq]
  have hlen1 : 92 + 8192 * n ≤ (fread input 0 92 ++ pairsOut operation input 92 n ++
      metadataOut env1 (readHeader input) input).length := by
    rw [List.length_append, List.length_append, hH, hP]
    omega
  have hm2 : MetadataAllocated env2 (readHeader input)
      (fread input 0 92 ++ pairsOut operation input 92 n ++
        metadataOut env1 (readHeader input) input) :=
    allocated_of_output env1 env2 _ input _ hm (by
      rw [List.length_append]
      omega)
  have c2 := convert_full env2 operation _ n hlen1 (by rw [hr]; exact hv)
    (by rw [hr]; exact hd) (by rw [hr]; exact readMetadata_ne_segv env2 _ _ hm2)
  obtain ⟨_, t2, _⟩ := split3 _ _ _ 92 (8192 * n)
    (length_fread_header _ (Nat.le_trans (by omega) hlen1))
    (length_pairsOut operation _ 92 n hlen1)
  refine ⟨_, _, c1, c2, by rw [hr]; exact hv, ?_, ?_⟩
  · rw [s2, pairsOut_eq_mapPairs]
  · rw [t2, pairsOut_eq_mapPairs, List.append_assoc, List.drop_left' hH,
      mapPairs_append _ _ _ _ (by omega), pairsOut_eq_mapPairs]

/-! ## Decoding of the header -/

theorem littleEndianAt_succ (input : List Byte) (off size : Nat) :
    littleEndianAt input off (size + 1) =
      (input.getD off 0).val + 256 * littleEndianAt input (off + 1) size := by
  simp only [littleEndianAt, List.range_succ_eq_map, List.map_cons, List.sum_cons,
    List.map_map, Nat.add_zero, pow_zero, Nat.mul_one]
  congr 1
  rw [← List.sum_map_mul_left]
  congr 1
  apply List.map_congr_left
  intro i _
  simp only [Function.comp, Nat.succ_eq_add_one, pow_succ]
  have e : off + (i + 1) = off + 1 + i := by omega
  rw [e]
  ring

theorem leVal_field (input : List Byte) :
    ∀ (size off : Nat), off + size ≤ input.length →
      leVal (field input off size) = littleEndianAt input off size := by
  intro size
  induction size with
  | zero => intro off _; simp [field, leVal, littleEndianAt]
  | succ size ih =>
    intro off h
    have hlt : off < input.length := by omega
    rw [littleEndianAt_succ, ← ih (off + 1) (by omega), field, List.drop_eq_getElem_cons hlt,
      List.take_succ_cons, leVal, List.getD_eq_getElem _ _ hlt]
    rfl

theorem field_fread (input : List Byte) (off size : Nat) (h : off + size ≤ 92) :
    field (fread input 0 92) off size = field input off size := by
  have e : min size (92 - off) = size := by omega
  rw [field, field, fread, List.drop_zero, List.drop_take, List.take_take, e]

theorem leVal_header_field (input : List Byte) (off size : Nat) (h : off + size ≤ 92)
    (hlen : 92 ≤ input.length) :
    leVal (field (fread input 0 92) off size) = littleEndianAt input off size := by
  rw [field_fread input off size h, leVal_field input size off (by omega)]

theorem validate_ne_incomplete (h : dsf_header_t) : validate h ≠ some .incompleteHeader := by
  unfold validate
  split_ifs <;> simp

theorem blockLoopFuel_eq_iterate (operation : operation_t) (input : List Byte)
    (num_blocks : Nat) (hn : num_blocks < 2 ^ 52) :
    ∀ (k i fuel : Nat) (s : LoopState), (num_blocks + 1 - i) / 2 = k → k < fuel →
      blockLoopFuel operation input num_blocks fuel i s =
        some ((loopBody operation input)^[k] s) := by
  intro k
  induction k with
  | zero =>
    intro i fuel s h hf
    obtain ⟨fuel, rfl⟩ : ∃ f, fuel = f + 1 := ⟨fuel - 1, by omega⟩
    have : ¬ i < num_blocks := by omega
    simp [blockLoopFuel, this]
  | succ k ih =>
    intro i fuel s h hf
    obtain ⟨fuel, rfl⟩ : ∃ f, fuel = f + 1 := ⟨fuel - 1, by omega⟩
    have hi : i < num_blocks := by omega
    have hw : (i + 2) % 2 ^ 64 = i + 2 := Nat.mod_eq_of_lt (by omega)
    rw [blockLoopFuel, if_pos hi, hw, Function.iterate_succ_apply]
    exact ih (i + 2) fuel _ (by omega) (by omega)

theorem mapPairs_take (operation : operation_t) (n : Nat) (p : List Byte)
    (h : 8192 * n ≤ p.length) :
    mapPairs operation n p = mapPairs operation n (p.take (8192 * n)) := by
  have e := mapPairs_append operation n (p.take (8192 * n)) (p.drop (8192 * n))
    (by rw [List.length_take]; omega)
  rw [List.take_append_drop] at e
  exact e

/-- The output payload is a function of the operation and of the input
payload: no header field enters it. -/
theorem output_payload_of_payload (env : Env) (a0 arg a2 a3 : String)
    (input input2 : List Byte) (n : Nat) (harg : readOperation arg ≠ .OP_INVALID)
    (hlen : 92 + 8192 * n ≤ input.length) (hv : validate (readHeader input) = none)
    (hd : (readHeader input).data_chunk.length = 12 + 8192 * n)
    (hlen2 : 92 + 8192 * n ≤ input2.length) (hv2 : validate (readHeader input2) = none)
    (hd2 : (readHeader input2).data_chunk.length = 12 + 8192 * n)
    (hns : readMetadata env (readHeader input) input ≠ .segv)
    (hns2 : readMetadata env (readHeader input2) input2 ≠ .segv)
    (hp : (input2.drop 92).take (8192 * n) = (input.drop 92).take (8192 * n)) :
    ∃ out out2,
      (dsfutil.main env [a0, arg, a2, a3] (some input) true).output = some out ∧
      (dsfutil.main env [a0, arg, a2, a3] (some input2) true).output = some out2 ∧
      (out2.drop 92).take (8192 * n) = (out.drop 92).take (8192 * n) := by
  obtain ⟨out, ho, h1⟩ := output_payload env a0 arg a2 a3 input n harg hlen hv hd hns
  obtain ⟨out2, ho2, h2⟩ :=
    output_payload env a0 arg a2 a3 input2 n harg hlen2 hv2 hd2 hns2
  refine ⟨out, out2, ho, ho2, ?_⟩
  rw [h1, h2, pairsOut_eq_mapPairs, pairsOut_eq_mapPairs,
    mapPairs_take _ n (input2.drop 92) (by rw [List.length_drop]; omega),
    mapPairs_take _ n (input.drop 92) (by rw [List.length_drop]; omega), hp]

/-! ## Runs whose metadata allocation fails -/

/-- A conversion whose header passes the checks either is killed while it
reads the metadata, leaving an empty output, or writes header, blocks and
metadata. -/
theorem convert_cases (env : Env) (operation : operation_t) (input : List Byte)
    (hlen : 92 ≤ input.length) (hv : validate (readHeader input) = none) :
    convert env operation input = { status := 139, output := some [], diag := none } ∨
    ∃ X, convert env operation input =
        { status := 0
          output := some (fread input 0 92 ++ X ++ metadataOut env (readHeader input) input)
          diag := none } ∧
      X.length = 8192 * ((numBlocks (readHeader input) + 1) / 2) := by
  by_cases hk : readMetadata env (readHeader input) input = .segv
  · rw [readHeader_eq] at hv hk
    exact Or.inl (convert_segv env operation input hlen hv hk)
  · exact Or.inr (convert_shape env operation input hlen hv hk)

theorem fread_ne_nil (file : List Byte) (pos n : Nat) (hp : pos < file.length)
    (hn : 0 < n) : fread file pos n ≠ [] := by
  intro h
  have hl := congrArg List.length h
  rw [fread, List.length_take, List.length_drop, List.length_nil] at hl
  omega

/-- A metadata pointer beyond the file size, with a byte of the input at
it: the request wraps to `2 ^ 63` bytes or more, `malloc` returns the null
pointer and `fread` stores through it. -/
theorem readMetadata_segv_of_wrap (env : Env) (h : dsf_header_t) (input : List Byte)
    (h0 : h.dsd_chunk.metadata_ptr ≠ 0) (hbig : 2 ^ 63 ≤ metadataLength h)
    (hpos : h.dsd_chunk.metadata_ptr < 2 ^ 63)
    (hlt : h.dsd_chunk.metadata_ptr < input.length) :
    readMetadata env h input = .segv := by
  have hseek : fseek sizeof_dsf_header_t h.dsd_chunk.metadata_ptr =
      h.dsd_chunk.metadata_ptr := by
    rw [fseek, if_pos hpos]
  refine readMetadata_segv env h input h0 (malloc_of_ge env input _ hbig) ?_
  rw [hseek]
  exact fread_ne_nil input _ _ hlt (by omega)

/-- A run of `dsfutil` that is killed while it reads the metadata. -/
theorem main_segv (env : Env) (a0 arg a2 a3 : String) (input : List Byte)
    (harg : readOperation arg ≠ .OP_INVALID)
    (hlen : 92 ≤ input.length) (hv : validate (readHeader input) = none)
    (hk : readMetadata env (readHeader input) input = .segv) :
    dsfutil.main env [a0, arg, a2, a3] (some input) true =
      { status := 139, output := some [], diag := none } := by
  rw [readHeader_eq] at hv hk
  rw [main_eq_convert env a0 arg a2 a3 input harg]
  exact convert_segv env (readOperation arg) input hlen hv hk

/-- A run of `dsfswap` that is killed while it reads the metadata. -/
theorem dsfswap_main_segv (env : Env) (a0 a1 a2 : String) (input : List Byte)
    (hlen : 92 ≤ input.length) (hv : validate (readHeader input) = none)
    (hk : readMetadata env (readHeader input) input = .segv) :
    dsfswap.main env [a0, a1, a2] (some input) true =
      { status := 139, output := some [], diag := none } := by
  rw [readHeader_eq] at hv hk
  simp only [dsfswap.main, if_true, dsfswap_convert_eq]
  exact convert_segv env .OP_SWAP_CHANNELS input hlen hv hk

theorem length_danglingInput : danglingInput.length = 92 + 8192 * 2 := by
  simp only [danglingInput, List.length_append, length_sampleHeader, length_block00,
    length_blockFF]

theorem readHeader_danglingInput :
    readHeader danglingInput = dsf_header_t.ofBytes (sampleHeader 92 93 16396).toBytes := by
  rw [danglingInput, readHeader_append _ _ (length_sampleHeader _ _ _)]

theorem validate_danglingInput : validate (readHeader danglingInput) = none := by
  rw [readHeader_danglingInput]
  decide

theorem data_length_danglingInput :
    (readHeader danglingInput).data_chunk.length = 12 + 8192 * 2 := by
  rw [readHeader_danglingInput]
  decide

theorem metadata_ptr_danglingInput :
    (readHeader danglingInput).dsd_chunk.metadata_ptr = 93 ∧
    (readHeader danglingInput).dsd_chunk.file_size = 92 := by
  rw [readHeader_danglingInput]
  decide

/-- The wrapped metadata length of a header with `metadata_ptr = 93` and
`file_size = 92`. -/
theorem metadataLength_wrap (h : dsf_header_t) (hp : h.dsd_chunk.metadata_ptr = 93)
    (hf : h.dsd_chunk.file_size = 92) : metadataLength h = 2 ^ 64 - 1 := by
  rw [metadataLength_eq, hp, hf]
  norm_num

theorem readMetadata_danglingInput (env : Env) :
    readMetadata env (readHeader danglingInput) danglingInput = .segv := by
  obtain ⟨hp, hf⟩ := metadata_ptr_danglingInput
  refine readMetadata_segv_of_wrap env _ _ (by rw [hp]; decide)
    (by rw [metadataLength_wrap _ hp hf]; norm_num) (by rw [hp]; norm_num)
    (by rw [hp, length_danglingInput]; norm_num)

/-- On the input with the dangling metadata pointer every run of `dsfutil`
is killed before it writes a byte. -/
theorem main_danglingInput (env : Env) (a0 arg a2 a3 : String)
    (harg : readOperation arg ≠ .OP_INVALID) :
    dsfutil.main env [a0, arg, a2, a3] (some danglingInput) true =
      { status := 139, output := some [], diag := none } :=
  main_segv env a0 arg a2 a3 danglingInput harg (by rw [length_danglingInput]; omega)
    validate_danglingInput (readMetadata_danglingInput env)

/-- An empty file has no payload region that holds the transformed pairs. -/
theorem no_payload_in_empty (operation : operation_t) (input : List Byte) (n : Nat)
    (hn : 0 < n) (hlen : 92 + 8192 * n ≤ input.length) :
    (([] : List Byte).drop 92).take (8192 * n) ≠ pairsOut operation input 92 n := by
  intro h
  have hl := congrArg List.length h
  rw [length_pairsOut _ _ _ _ hlen, List.drop_nil, List.take_nil, List.length_nil] at hl
  omega

/-- A run of `dsfutil` on an empty input file. -/
theorem main_empty_input (env : Env) (a0 arg a2 a3 : String)
    (harg : readOperation arg ≠ .OP_INVALID) :
    dsfutil.main env [a0, arg, a2, a3] (some []) true =
      { status := 1, output := some [], diag := some .incompleteHeader } := by
  rw [main_eq_convert env a0 arg a2 a3 [] harg]
  exact convert_truncated env _ [] (by decide)

/-- An empty file does not hold the payload of `danglingInput`. -/
theorem no_original_payload_in_empty :
    (([] : List Byte).drop 92).take (8192 * 2) ≠ (danglingInput.drop 92).take (8192 * 2) := by
  intro h
  have hl := congrArg List.length h
  rw [List.drop_nil, List.take_nil, List.length_nil, List.length_take, List.length_drop,
    length_danglingInput] at hl
  omega

theorem metadata_ptr_scenarioInput :
    (readHeader scenarioInput).dsd_chunk.metadata_ptr = 0 := by
  rw [scenarioInput, readHeader_append _ _ (length_sampleHeader _ _ _)]
  decide

theorem allocated_scenarioInput (env : Env) :
    MetadataAllocated env (readHeader scenarioInput) scenarioInput :=
  Or.inl metadata_ptr_scenarioInput

theorem length_danglingShortLengthInput : danglingShortLengthInput.length = 94 := by
  simp only [danglingShortLengthInput, List.length_append, length_sampleHeader,
    List.length_cons, List.length_nil]

theorem readHeader_danglingShortLengthInput :
    readHeader danglingShortLengthInput =
      dsf_header_t.ofBytes (sampleHeader 92 93 0).toBytes := by
  rw [danglingShortLengthInput, readHeader_append _ _ (length_sampleHeader _ _ _)]

theorem validate_danglingShortLengthInput :
    validate (readHeader danglingShortLengthInput) = none := by
  rw [readHeader_danglingShortLengthInput]
  decide

/-- On the input with data chunk length 0 and a dangling metadata pointer
the allocation fails and `fread` stores through the null pointer. -/
theorem readMetadata_danglingShortLengthInput (env : Env) :
    readMetadata env (readHeader danglingShortLengthInput) danglingShortLengthInput =
      .segv := by
  have hp : (readHeader danglingShortLengthInput).dsd_chunk.metadata_ptr = 93 := by
    rw [readHeader_danglingShortLengthInput]
    decide
  have hf : (readHeader danglingShortLengthInput).dsd_chunk.file_size = 92 := by
    rw [readHeader_danglingShortLengthInput]
    decide
  refine readMetadata_segv_of_wrap env _ _ (by rw [hp]; decide)
    (by rw [metadataLength_wrap _ hp hf]; norm_num) (by rw [hp]; norm_num)
    (by rw [hp, length_danglingShortLengthInput]; norm_num)

/-! ## The claims -/

/-- C1, counterexample to the claim as stated: the header of
`danglingInput` passes validation with payload length `8192 * 2` and the
input holds its `92 + 8192 * 2` bytes, but `metadata_ptr = 93` lies beyond
`file_size = 92`: the allocation of the wrapped metadata length fails, the
run of `swapch` is killed while it reads the metadata, and the output is
empty; it has no payload of swapped pairs. -/
theorem C1_dangling_pointer_counterexample :
    validate (readHeader danglingInput) = none ∧
    (readHeader danglingInput).data_chunk.length = 12 + 8192 * 2 ∧
    92 + 8192 * 2 ≤ danglingInput.length ∧
    dsfutil.main zeroEnv ["dsfutil", "swapch", "in.dsf", "out.dsf"]
      (some danglingInput) true = { status := 139, output := some [], diag := none } ∧
    ¬ ∃ out, (dsfutil.main zeroEnv ["dsfutil", "swapch", "in.dsf", "out.dsf"]
        (some danglingInput) true).output = some out ∧
      (out.drop 92).take (8192 * 2) = (List.range 2).flatMap (fun k =>
        (danglingInput.drop (92 + 8192 * k + 4096)).take 4096 ++
          (danglingInput.drop (92 + 8192 * k)).take 4096) := by
  have hmain := main_danglingInput zeroEnv "dsfutil" "swapch" "in.dsf" "out.dsf" (by decide)
  refine ⟨validate_danglingInput, data_length_danglingInput,
    Nat.le_of_eq length_danglingInput.symm, hmain, ?_⟩
  rintro ⟨out, ho, hp⟩
  rw [hmain] at ho
  have he : out = [] := (Option.some.inj ho).symm
  rw [he] at hp
  exact no_payload_in_empty .OP_SWAP_CHANNELS danglingInput 2 (by decide)
    (Nat.le_of_eq length_danglingInput.symm) hp

/-- C1, amended: for a header that passes validation with payload length
`8192 * n`, an input holding at least `92 + 8192 * n` bytes, and a metadata
allocation that succeeds (`metadata_ptr = 0`, or `malloc` returns memory
for the metadata length), the output payload (output bytes 92 up to
`92 + 8192 * n`) is the in-order concatenation over `k < n` of the
transformed pair of the `k`-th left block `L k` and right block `R k` of
the input: `swapch` emits `R k, L k`, `lisolate` emits `L k, L k`,
`risolate` emits `R k, R k`. -/
theorem C1_swap_isolate_payload (env : Env) (a0 a2 a3 : String) (input : List Byte)
    (n : Nat) (hlen : 92 + 8192 * n ≤ input.length)
    (hv : validate (readHeader input) = none)
    (hd : (readHeader input).data_chunk.length = 12 + 8192 * n)
    (hm : MetadataAllocated env (readHeader input) input) :
    (∃ out, (dsfutil.main env [a0, "swapch", a2, a3] (some input) true).output = some out ∧
      (out.drop 92).take (8192 * n) = (List.range n).flatMap (fun k =>
        (input.drop (92 + 8192 * k + 4096)).take 4096 ++
          (input.drop (92 + 8192 * k)).take 4096)) ∧
    (∃ out, (dsfutil.main env [a0, "lisolate", a2, a3] (some input) true).output = some out ∧
      (out.drop 92).take (8192 * n) = (List.range n).flatMap (fun k =>
        (input.drop (92 + 8192 * k)).take 4096 ++
          (input.drop (92 + 8192 * k)).take 4096)) ∧
    (∃ out, (dsfutil.main env [a0, "risolate", a2, a3] (some input) true).output = some out ∧
      (out.drop 92).take (8192 * n) = (List.range n).flatMap (fun k =>
        (input.drop (92 + 8192 * k + 4096)).take 4096 ++
          (input.drop (92 + 8192 * k + 4096)).take 4096)) := by
  have hns := readMetadata_ne_segv env _ input hm
  refine ⟨?_, ?_, ?_⟩
  · have h := output_payload env a0 "swapch" a2 a3 input n (by decide) hlen hv hd hns
    rw [readOperation_swapch] at h
    exact h
  · have h := output_payload env a0 "lisolate" a2 a3 input n (by decide) hlen hv hd hns
    rw [readOperation_lisolate] at h
    exact h
  · have h := output_payload env a0 "risolate" a2 a3 input n (by decide) hlen hv hd hns
    rw [readOperation_risolate] at h
    exact h

/-- C1, the concrete scenario of the specification: on the two-pair payload
00-block, FF-block, 00-block, FF-block, `swapch` yields FF-block, 00-block,
FF-block, 00-block. -/
theorem C1_scenario_swapch :
    ∃ out, (dsfutil.main zeroEnv ["dsfutil", "swapch", "in.dsf", "out.dsf"]
        (some scenarioInput) true).output = some out ∧
      (out.drop 92).take (8192 * 2) = blockFF ++ block00 ++ (blockFF ++ block00) := by
  obtain ⟨out, ho, hp⟩ := (C1_swap_isolate_payload zeroEnv "dsfutil" "in.dsf" "out.dsf"
    scenarioInput 2 (Nat.le_of_eq length_scenarioInput.symm) validate_scenarioInput
    data_length_scenarioInput (allocated_scenarioInput zeroEnv)).1
  refine ⟨out, ho, ?_⟩
  have r : List.range 2 = [0, 1] := rfl
  rw [hp, r]
  simp only [List.flatMap_cons, List.flatMap_nil, List.append_nil, Nat.mul_zero,
    Nat.add_zero, Nat.mul_one]
  rw [scenario_blocks.1, scenario_blocks.2.1, scenario_blocks.2.2.1, scenario_blocks.2.2.2]

/-- C2, counterexample to the claim as stated: the header of
`danglingInput` passes validation with payload length `8192 * 2` and the
input holds its `92 + 8192 * 2` bytes, but `metadata_ptr = 93` lies beyond
`file_size = 92`: the run of `linvert` is killed while it reads the
metadata, and the output is empty; it has no payload of inverted pairs. -/
theorem C2_dangling_pointer_counterexample :
    validate (readHeader danglingInput) = none ∧
    (readHeader danglingInput).data_chunk.length = 12 + 8192 * 2 ∧
    92 + 8192 * 2 ≤ danglingInput.length ∧
    dsfutil.main zeroEnv ["dsfutil", "linvert", "in.dsf", "out.dsf"]
      (some danglingInput) true = { status := 139, output := some [], diag := none } ∧
    ¬ ∃ out, (dsfutil.main zeroEnv ["dsfutil", "linvert", "in.dsf", "out.dsf"]
        (some danglingInput) true).output = some out ∧
      (out.drop 92).take (8192 * 2) = (List.range 2).flatMap (fun k =>
        ((danglingInput.drop (92 + 8192 * k)).take 4096).map bitNot ++
          (danglingInput.drop (92 + 8192 * k + 4096)).take 4096) := by
  have hmain := main_danglingInput zeroEnv "dsfutil" "linvert" "in.dsf" "out.dsf" (by decide)
  refine ⟨validate_danglingInput, data_length_danglingInput,
    Nat.le_of_eq length_danglingInput.symm, hmain, ?_⟩
  rintro ⟨out, ho, hp⟩
  rw [hmain] at ho
  have he : out = [] := (Option.some.inj ho).symm
  rw [he] at hp
  exact no_payload_in_empty .OP_LEFT_INVERT danglingInput 2 (by decide)
    (Nat.le_of_eq length_danglingInput.symm) hp

/-- C2, amended: for a header that passes validation with payload length
`8192 * n`, an input holding at least `92 + 8192 * n` bytes, and a metadata
allocation that succeeds (`metadata_ptr = 0`, or `malloc` returns memory
for the metadata length), the output payload of the three invert operations
is, for each pair `k` in order: `linvert` emits `c (L k), R k`, `rinvert`
emits `L k, c (R k)`, `invert` emits `c (L k), c (R k)`, where `c` applies
`bitNot` to every byte; `bitNot` maps a byte `b` to `255 - b`, and `c` keeps
the length of a block.  The result does not depend on `bits_per_sample`:
two such containers with the same payload bytes, whatever their header
fields, get the same output payload. -/
theorem C2_invert_payload (env : Env) (a0 a2 a3 : String) (input : List Byte)
    (n : Nat) (hlen : 92 + 8192 * n ≤ input.length)
    (hv : validate (readHeader input) = none)
    (hd : (readHeader input).data_chunk.length = 12 + 8192 * n)
    (hm : MetadataAllocated env (readHeader input) input) :
    (∃ out, (dsfutil.main env [a0, "linvert", a2, a3] (some input) true).output = some out ∧
      (out.drop 92).take (8192 * n) = (List.range n).flatMap (fun k =>
        ((input.drop (92 + 8192 * k)).take 4096).map bitNot ++
          (input.drop (92 + 8192 * k + 4096)).take 4096)) ∧
    (∃ out, (dsfutil.main env [a0, "rinvert", a2, a3] (some input) true).output = some out ∧
      (out.drop 92).take (8192 * n) = (List.range n).flatMap (fun k =>
        (input.drop (92 + 8192 * k)).take 4096 ++
          ((input.drop (92 + 8192 * k + 4096)).take 4096).map bitNot)) ∧
    (∃ out, (dsfutil.main env [a0, "invert", a2, a3] (some input) true).output = some out ∧
      (out.drop 92).take (8192 * n) = (List.range n).flatMap (fun k =>
        ((input.drop (92 + 8192 * k)).take 4096).map bitNot ++
          ((input.drop (92 + 8192 * k + 4096)).take 4096).map bitNot)) ∧
    (∀ b : Byte, (bitNot b).val = 255 - b.val) ∧
    (∀ block : List Byte, (block.map bitNot).length = block.length) ∧
    (∀ (arg : String) (input2 : List Byte), readOperation arg ≠ .OP_INVALID →
      92 + 8192 * n ≤ input2.length → validate (readHeader input2) = none →
      (readHeader input2).data_chunk.length = 12 + 8192 * n →
      MetadataAllocated env (readHeader input2) input2 →
      (input2.drop 92).take (8192 * n) = (input.drop 92).take (8192 * n) →
      ∃ out out2,
        (dsfutil.main env [a0, arg, a2, a3] (some input) true).output = some out ∧
        (dsfutil.main env [a0, arg, a2, a3] (some input2) true).output = some out2 ∧
        (out2.drop 92).take (8192 * n) = (out.drop 92).take (8192 * n)) := by
  have hns := readMetadata_ne_segv env _ input hm
  refine ⟨?_, ?_, ?_, bitNot_val, fun block => List.length_map block bitNot,
    fun arg input2 harg hlen2 hv2 hd2 hm2 hp =>
      output_payload_of_payload env a0 arg a2 a3 input input2 n harg hlen hv hd hlen2 hv2
        hd2 hns (readMetadata_ne_segv env _ input2 hm2) hp⟩
  · have h := output_payload env a0 "linvert" a2 a3 input n (by decide) hlen hv hd hns
    rw [readOperation_linvert] at h
    exact h
  · have h := output_payload env a0 "rinvert" a2 a3 input n (by decide) hlen hv hd hns
    rw [readOperation_rinvert] at h
    exact h
  · have h := output_payload env a0 "invert" a2 a3 input n (by decide) hlen hv hd hns
    rw [readOperation_invert] at h
    exact h

/-- C2, the concrete scenario of the specification: on the two-pair payload
00-block, FF-block, 00-block, FF-block, `linvert` yields four FF-blocks. -/
theorem C2_scenario_linvert :
    ∃ out, (dsfutil.main zeroEnv ["dsfutil", "linvert", "in.dsf", "out.dsf"]
        (some scenarioInput) true).output = some out ∧
      (out.drop 92).take (8192 * 2) = blockFF ++ blockFF ++ (blockFF ++ blockFF) := by
  obtain ⟨out, ho, hp⟩ := (C2_invert_payload zeroEnv "dsfutil" "in.dsf" "out.dsf"
    scenarioInput 2 (Nat.le_of_eq length_scenarioInput.symm) validate_scenarioInput
    data_length_scenarioInput (allocated_scenarioInput zeroEnv)).1
  refine ⟨out, ho, ?_⟩
  have r : List.range 2 = [0, 1] := rfl
  rw [hp, r]
  simp only [List.flatMap_cons, List.flatMap_nil, List.append_nil, Nat.mul_zero,
    Nat.add_zero, Nat.mul_one]
  rw [scenario_blocks.1, scenario_blocks.2.1, scenario_blocks.2.2.1, scenario_blocks.2.2.2,
    map_bitNot_block00]

/-- C4: for every parsed header, the diagnostic reported (by `dsfutil` and
by `dsfswap`) is the one of the first check of the program that fails, and
its error kind is the error of the lowest-numbered failing check in the
order of the specification: DSD tag, DSD chunk length, fmt tag, fmt chunk
length, format profile, data tag, channel layout.  Hence a header that
violates exactly one check reports that check's error kind; the seven kinds
are pairwise distinct. -/
theorem C4_first_failing_check (env : Env) (a0 arg a2 a3 : String) (input : List Byte)
    (harg : readOperation arg ≠ .OP_INVALID) (hlen : 92 ≤ input.length) :
    (dsfutil.main env [a0, arg, a2, a3] (some input) true).diag =
      validate (readHeader input) ∧
    (dsfswap.main env [a0, a2, a3] (some input) true).diag =
      dsfswap.validate (readHeader input) ∧
    (validate (readHeader input)).map Diag.kind = specValidate (readHeader input) ∧
    (dsfswap.validate (readHeader input)).map Diag.kind = specValidate (readHeader input) ∧
    (∀ (i : Nat) (c : Bool × ErrorKind), (specChecks (readHeader input))[i]? = some c →
      (∀ j c', (specChecks (readHeader input))[j]? = some c' → (c'.1 = false ↔ j = i)) →
      (validate (readHeader input)).map Diag.kind = some c.2) ∧
    ((specChecks (readHeader input)).map (fun c => c.2)).Nodup := by
  obtain ⟨h1, h2, h3⟩ := tag_lengths input hlen
  have hk := validate_kind (readHeader input) h1 h2 h3
  have hdiag : (convert env (readOperation arg) input).diag = validate (readHeader input) ∧
      (convert env .OP_SWAP_CHANNELS input).diag = validate (readHeader input) := by
    cases hv : validate (readHeader input) with
    | none =>
      constructor
      · rcases convert_cases env (readOperation arg) input hlen hv with hX | ⟨X, hX, _⟩
        · rw [hX]
        · rw [hX]
      · rcases convert_cases env .OP_SWAP_CHANNELS input hlen hv with hY | ⟨Y, hY, _⟩
        · rw [hY]
        · rw [hY]
    | some d =>
      rw [convert_invalid env (readOperation arg) input hlen d hv,
        convert_invalid env .OP_SWAP_CHANNELS input hlen d hv]
      exact ⟨rfl, rfl⟩
  refine ⟨?_, ?_, hk, ?_, ?_, ?_⟩
  · rw [main_eq_convert env a0 arg a2 a3 input harg]
    exact hdiag.1
  · rw [dsfswap_validate_eq]
    simp only [dsfswap.main, if_true, dsfswap_convert_eq]
    exact hdiag.2
  · rw [dsfswap_validate_eq]
    exact hk
  · intro i c hi hone
    rw [hk, specValidate,
      find?_first (fun c => !c.1) (specChecks (readHeader input)) i c hi
        (by simp [(hone i c hi).mpr rfl])
        (fun j c' hj hc' => by
          have hne : j ≠ i := by omega
          have := (hone j c' hc').not.mpr hne
          simpa using this)]
    rfl
  · simp [specChecks]

/-- C4 at a header that violates only the format-profile check: the
diagnostic is `invalidDsfFile`, of kind `UnsupportedFormatProfile`. -/
theorem C4_bad_rate_witness :
    (dsfutil.main zeroEnv ["dsfutil", "swapch", "in.dsf", "out.dsf"]
      (some badRateInput) true).diag = some .invalidDsfFile ∧
    Diag.kind .invalidDsfFile = .UnsupportedFormatProfile := by
  have h := (C4_first_failing_check zeroEnv "dsfutil" "swapch" "in.dsf" "out.dsf"
    badRateInput (by decide) (by decide)).1
  rw [h]
  exact ⟨by decide, rfl⟩

/-- C5: for every input and every operation, the conversion exits with
status 1 and leaves the output empty (zero bytes written) exactly when the
header is truncated or one of the checks fails; so the header is written
only after all checks have passed. -/
theorem C5_no_output_on_failure (env : Env) (a0 arg a2 a3 : String) (input : List Byte)
    (harg : readOperation arg ≠ .OP_INVALID) :
    ((dsfutil.main env [a0, arg, a2, a3] (some input) true).status = 1 ∧
      (dsfutil.main env [a0, arg, a2, a3] (some input) true).output = some []) ↔
    (input.length < 92 ∨ validate (readHeader input) ≠ none) := by
  rw [main_eq_convert env a0 arg a2 a3 input harg]
  by_cases hlen : input.length < 92
  · rw [convert_truncated env (readOperation arg) input hlen]
    simp [hlen]
  · have hlen' : 92 ≤ input.length := by omega
    cases hv : validate (readHeader input) with
    | none =>
      rcases convert_cases env (readOperation arg) input hlen' hv with hX | ⟨X, hX, _⟩
      · rw [hX]
        simp [hlen]
      · rw [hX]
        simp [hlen]
    | some d =>
      rw [convert_invalid env (readOperation arg) input hlen' d hv]
      simp

/-- C5 at a header that fails the format-profile check: status 1 and an
empty output. -/
theorem C5_bad_rate_witness :
    (dsfutil.main zeroEnv ["dsfutil", "lisolate", "in.dsf", "out.dsf"]
      (some badRateInput) true).status = 1 ∧
    (dsfutil.main zeroEnv ["dsfutil", "lisolate", "in.dsf", "out.dsf"]
      (some badRateInput) true).output = some [] :=
  (C5_no_output_on_failure zeroEnv "dsfutil" "lisolate" "in.dsf" "out.dsf" badRateInput
    (by decide)).mpr (Or.inr (by decide))

/-- C6, counterexample to the claim as stated: with a payload length of
12288 bytes, for which `12288 / 8192 = 1`, the loop writes two block pairs:
the output holds 92 + 16384 bytes, not 92 + 8192. -/
theorem C6_odd_blocks_counterexample :
    validate (readHeader oddBlocksInput) = none ∧
    (readHeader oddBlocksInput).data_chunk.length - 12 = 12288 ∧
    12288 / 8192 = 1 ∧
    ∃ out, (dsfutil.main zeroEnv ["dsfutil", "swapch", "in.dsf", "out.dsf"]
        (some oddBlocksInput) true).output = some out ∧
      out.length = 92 + 8192 * 2 ∧ out.length ≠ 92 + 8192 * (12288 / 8192) := by
  have hr : readHeader oddBlocksInput =
      dsf_header_t.ofBytes (sampleHeader 12380 0 12300).toBytes := by
    rw [oddBlocksInput, readHeader_append _ _ (length_sampleHeader _ _ _)]
  have hv : validate (readHeader oddBlocksInput) = none := by
    rw [hr]
    decide
  have hd : (readHeader oddBlocksInput).data_chunk.length = 12300 := by
    rw [hr]
    decide
  have hm : (readHeader oddBlocksInput).dsd_chunk.metadata_ptr = 0 := by
    rw [hr]
    decide
  have hlen : oddBlocksInput.length = 12380 := by
    simp only [oddBlocksInput, List.length_append, length_sampleHeader,
      List.length_replicate]
  obtain ⟨X, hX, hXl⟩ := main_shape zeroEnv "dsfutil" "swapch" "in.dsf" "out.dsf"
    oddBlocksInput (by decide) (by omega) hv (readMetadata_ne_segv _ _ _ (Or.inl hm))
  refine ⟨hv, by rw [hd], by decide, _, by rw [hX], ?_⟩
  have hk : (numBlocks (readHeader oddBlocksInput) + 1) / 2 = 2 := by
    rw [numBlocks_eq, hd]
    norm_num
  rw [hk] at hXl
  rw [metadataOut_zero _ _ _ hm, List.append_nil, List.length_append,
    length_take_header _ (by omega), hXl]
  exact ⟨rfl, by decide⟩

/-- C6, amended: for every header that passes validation and whose
metadata allocation succeeds (`metadata_ptr = 0`, or `malloc` returns
memory for the metadata length), with `payload` the data chunk length minus
12 in 64-bit arithmetic, the loops of `dsfutil` and of `dsfswap` run their
body (one block pair read, one block pair written)
`ceil(floor(payload / 4096) / 2)` times, and the output holds 8192 bytes for
each of them between the header and the metadata.  That number is
`payload / 8192` when `payload % 8192 < 4096` and one more otherwise: only
leftover bytes below one full block are ignored. -/
theorem C6_block_pair_count (env : Env) (a0 arg a2 a3 : String) (input : List Byte)
    (payload : Nat) (harg : readOperation arg ≠ .OP_INVALID)
    (hlen : 92 ≤ input.length) (hv : validate (readHeader input) = none)
    (hm : MetadataAllocated env (readHeader input) input)
    (hp : payload = ((readHeader input).data_chunk.length + 2 ^ 64 - 12) % 2 ^ 64) :
    numBlocks (readHeader input) = payload / 4096 ∧
    (∀ s, blockLoop (readOperation arg) input (numBlocks (readHeader input))
        (numBlocks_lt (readHeader input)) 0 s =
      (loopBody (readOperation arg) input)^[(payload / 4096 + 1) / 2] s) ∧
    (∀ s, dsfswap.blockLoop input (numBlocks (readHeader input))
        (numBlocks_lt (readHeader input)) 0 s =
      (dsfswap.loopBody input)^[(payload / 4096 + 1) / 2] s) ∧
    (∃ X, (dsfutil.main env [a0, arg, a2, a3] (some input) true).output =
        some (input.take 92 ++ X ++ metadataOut env (readHeader input) input) ∧
      X.length = 8192 * ((payload / 4096 + 1) / 2)) ∧
    (payload % 8192 < 4096 → (payload / 4096 + 1) / 2 = payload / 8192) ∧
    (4096 ≤ payload % 8192 → (payload / 4096 + 1) / 2 = payload / 8192 + 1) := by
  have hn : numBlocks (readHeader input) = payload / 4096 := by
    rw [numBlocks_eq, hp]
  refine ⟨hn, fun s => ?_, fun s => ?_, ?_, fun _ => by omega, fun _ => by omega⟩
  · rw [← hn]
    exact blockLoop_eq_iterate _ _ _ _ _ 0 s (by rw [Nat.sub_zero])
  · rw [← hn]
    exact dsfswap_blockLoop_eq_iterate _ _ _ _ 0 s (by rw [Nat.sub_zero])
  · obtain ⟨X, hX, hXl⟩ := main_shape env a0 arg a2 a3 input harg hlen hv
      (readMetadata_ne_segv env _ input hm)
    rw [hn] at hXl
    exact ⟨X, by rw [hX], hXl⟩

/-- C6 at the container of the concrete scenario: a payload of 16384 bytes
gives two block pairs. -/
theorem C6_scenario_witness :
    ∃ X, (dsfutil.main zeroEnv ["dsfutil", "swapch", "in.dsf", "out.dsf"]
        (some scenarioInput) true).output =
        some (scenarioInput.take 92 ++ X ++
          metadataOut zeroEnv (readHeader scenarioInput) scenarioInput) ∧
      X.length = 8192 * ((16384 / 4096 + 1) / 2) :=
  (C6_block_pair_count zeroEnv "dsfutil" "swapch" "in.dsf" "out.dsf" scenarioInput 16384
    (by decide) (by rw [length_scenarioInput]; omega) validate_scenarioInput
    (allocated_scenarioInput zeroEnv)
    (by rw [data_length_scenarioInput]; norm_num)).2.2.2.1

/-- C7, counterexample to the claim as stated: a header that passes the
checks with `metadata_ptr = file_size = 92` (not zero, not below the file
size) is converted with exit status 0 and no diagnostic; the output is the
header followed by no metadata. -/
theorem C7_pointer_at_end_counterexample :
    validate (readHeader emptyMetadataInput) = none ∧
    (readHeader emptyMetadataInput).dsd_chunk.metadata_ptr = 92 ∧
    (readHeader emptyMetadataInput).dsd_chunk.file_size = 92 ∧
    dsfutil.main zeroEnv ["dsfutil", "swapch", "in.dsf", "out.dsf"]
      (some emptyMetadataInput) true =
      { status := 0, output := some emptyMetadataInput, diag := none } := by
  have hl : emptyMetadataInput.length = 92 := length_sampleHeader _ _ _
  have hv : validate (readHeader emptyMetadataInput) = none := by decide
  have hp : (readHeader emptyMetadataInput).dsd_chunk.metadata_ptr = 92 := by decide
  have hf : (readHeader emptyMetadataInput).dsd_chunk.file_size = 92 := by decide
  have hd : (readHeader emptyMetadataInput).data_chunk.length = 12 + 8192 * 0 := by decide
  refine ⟨hv, hp, hf, ?_⟩
  rw [main_eq_convert _ _ _ _ _ _ (by decide),
    convert_full zeroEnv _ emptyMetadataInput 0 (by omega) hv hd
      (readMetadata_ne_segv _ _ _ (allocated_of_ptr_eq_size _ _ _ (by rw [hp, hf]))),
    metadataOut_of_ptr_eq_size _ _ _ (by rw [hp, hf]),
    fread, List.drop_zero, List.take_of_length_le (by omega)]
  rfl

/-- C7, amended: the programs have no check of the metadata pointer, and
none of their diagnostics has the kind `CorruptMetadataPointer`.  For every
header that passes the seven checks with `metadata_ptr` equal to
`file_size`, `dsfutil` and `dsfswap` do not fail: they exit with status 0
and without diagnostic, and the output is the header followed by the block
pairs, with no metadata byte. -/
theorem C7_pointer_at_end_accepted (env : Env) (a0 arg a2 a3 : String)
    (input : List Byte) (harg : readOperation arg ≠ .OP_INVALID)
    (hlen : 92 ≤ input.length) (hv : validate (readHeader input) = none)
    (heq : (readHeader input).dsd_chunk.metadata_ptr =
      (readHeader input).dsd_chunk.file_size) :
    (∃ X, dsfutil.main env [a0, arg, a2, a3] (some input) true =
        { status := 0, output := some (input.take 92 ++ X), diag := none } ∧
      X.length = 8192 * ((numBlocks (readHeader input) + 1) / 2)) ∧
    (∃ Y, dsfswap.main env [a0, a2, a3] (some input) true =
        { status := 0, output := some (input.take 92 ++ Y), diag := none } ∧
      Y.length = 8192 * ((numBlocks (readHeader input) + 1) / 2)) ∧
    (∀ d : Diag, d.kind ≠ .CorruptMetadataPointer) := by
  have hns := readMetadata_ne_segv env _ input (allocated_of_ptr_eq_size env _ input heq)
  have hmo := metadataOut_of_ptr_eq_size env _ input heq
  obtain ⟨X, hX, hXl⟩ := main_shape env a0 arg a2 a3 input harg hlen hv hns
  obtain ⟨Y, hY, hYl⟩ := dsfswap_main_shape env a0 a2 a3 input hlen hv hns
  rw [hmo, List.append_nil] at hX hY
  refine ⟨⟨X, hX, hXl⟩, ⟨Y, hY, hYl⟩, ?_⟩
  intro d
  cases d <;> simp [Diag.kind]

/-- C7 at the header-only container whose metadata pointer equals its file
size: the run succeeds and writes the header. -/
theorem C7_pointer_at_end_witness :
    ∃ X, dsfutil.main zeroEnv ["dsfutil", "rinvert", "in.dsf", "out.dsf"]
        (some emptyMetadataInput) true =
        { status := 0, output := some (emptyMetadataInput.take 92 ++ X), diag := none } ∧
      X.length = 8192 * ((numBlocks (readHeader emptyMetadataInput) + 1) / 2) :=
  (C7_pointer_at_end_accepted zeroEnv "dsfutil" "rinvert" "in.dsf" "out.dsf"
    emptyMetadataInput (by decide) (by decide) (by decide) (by decide)).1

/-- C8, counterexample to the claim as stated: the header of
`danglingInput` passes validation, but `metadata_ptr = 93` lies beyond
`file_size = 92`: the run is killed while it reads the metadata, before the
header is written, and the output is empty; its first bytes are not the 92
header bytes of the input. -/
theorem C8_dangling_pointer_counterexample :
    validate (readHeader danglingInput) = none ∧
    92 ≤ danglingInput.length ∧
    dsfutil.main zeroEnv ["dsfutil", "risolate", "in.dsf", "out.dsf"]
      (some danglingInput) true = { status := 139, output := some [], diag := none } ∧
    ¬ ∃ out, (dsfutil.main zeroEnv ["dsfutil", "risolate", "in.dsf", "out.dsf"]
        (some danglingInput) true).output = some out ∧
      out.take 92 = danglingInput.take 92 := by
  have hmain := main_danglingInput zeroEnv "dsfutil" "risolate" "in.dsf" "out.dsf"
    (by decide)
  have hl : 92 ≤ danglingInput.length := by
    rw [length_danglingInput]
    omega
  refine ⟨validate_danglingInput, hl, hmain, ?_⟩
  rintro ⟨out, ho, hp⟩
  rw [hmain] at ho
  have he : out = [] := (Option.some.inj ho).symm
  rw [he] at hp
  have h92 := congrArg List.length hp
  rw [length_take_header _ hl, List.take_nil, List.length_nil] at h92
  omega

/-- C8, amended: for every one of the six operations and every input whose
header passes validation and whose metadata allocation succeeds
(`metadata_ptr = 0`, or `malloc` returns memory for the metadata length),
the first 92 bytes of the output are the first 92 bytes of the input. -/
theorem C8_header_preserved (env : Env) (a0 arg a2 a3 : String) (input : List Byte)
    (harg : readOperation arg ≠ .OP_INVALID)
    (hlen : 92 ≤ input.length) (hv : validate (readHeader input) = none)
    (hm : MetadataAllocated env (readHeader input) input) :
    ∃ out, (dsfutil.main env [a0, arg, a2, a3] (some input) true).output = some out ∧
      out.take 92 = input.take 92 := by
  obtain ⟨X, hX, _⟩ := main_shape env a0 arg a2 a3 input harg hlen hv
    (readMetadata_ne_segv env _ input hm)
  exact ⟨_, by rw [hX], (split3 _ _ _ 92 X.length (length_take_header input hlen) rfl).1⟩

/-- C8 at the container of the concrete scenario, for `risolate`. -/
theorem C8_scenario_witness :
    ∃ out, (dsfutil.main zeroEnv ["dsfutil", "risolate", "in.dsf", "out.dsf"]
        (some scenarioInput) true).output = some out ∧
      out.take 92 = scenarioInput.take 92 :=
  C8_header_preserved zeroEnv "dsfutil" "risolate" "in.dsf" "out.dsf" scenarioInput
    (by decide) (by rw [length_scenarioInput]; omega) validate_scenarioInput
    (allocated_scenarioInput zeroEnv)

/-- C9: for every one of the six operations and every input file (its
size fits the offset type `long`, that is, is below `2 ^ 63`) of actual
length `file_size` whose header passes validation with `metadata_ptr` not
zero and below `file_size`, the last `file_size - metadata_ptr` bytes of
the output are the input bytes from offset `metadata_ptr` to the end. -/
theorem C9_metadata_preserved (env : Env) (a0 arg a2 a3 : String) (input : List Byte)
    (harg : readOperation arg ≠ .OP_INVALID)
    (hv : validate (readHeader input) = none)
    (hfile : input.length < 2 ^ 63)
    (hsize : input.length = (readHeader input).dsd_chunk.file_size)
    (h0 : (readHeader input).dsd_chunk.metadata_ptr ≠ 0)
    (hlt : (readHeader input).dsd_chunk.metadata_ptr < (readHeader input).dsd_chunk.file_size)
    (hlen : 92 ≤ input.length) :
    ∃ out, (dsfutil.main env [a0, arg, a2, a3] (some input) true).output = some out ∧
      out.drop (out.length - ((readHeader input).dsd_chunk.file_size -
        (readHeader input).dsd_chunk.metadata_ptr)) =
        input.drop (readHeader input).dsd_chunk.metadata_ptr := by
  obtain ⟨X, hX, _⟩ := main_shape env a0 arg a2 a3 input harg hlen hv
    (readMetadata_ne_segv env _ input
      (allocated_within env _ input (by omega) hsize hfile))
  have hm := metadataOut_eq_drop env (readHeader input) input h0 (by omega) hsize hfile
  refine ⟨_, by rw [hX], ?_⟩
  rw [hm]
  have hdl : (input.drop (readHeader input).dsd_chunk.metadata_ptr).length =
      (readHeader input).dsd_chunk.file_size - (readHeader input).dsd_chunk.metadata_ptr := by
    rw [List.length_drop, hsize]
  rw [List.length_append, hdl, Nat.add_sub_cancel, List.drop_left]

/-- C9 at a container whose three bytes of metadata follow the header. -/
theorem C9_metadata_witness :
    ∃ out, (dsfutil.main zeroEnv ["dsfutil", "linvert", "in.dsf", "out.dsf"]
        (some metadataInput) true).output = some out ∧
      out.drop (out.length - (95 - 92)) = [1, 2, 3] := by
  have hl : metadataInput.length = 95 := by
    simp only [metadataInput, List.length_append, length_sampleHeader, List.length_cons,
      List.length_nil]
  have hr : readHeader metadataInput =
      dsf_header_t.ofBytes (sampleHeader 95 92 12).toBytes := by
    rw [metadataInput, readHeader_append _ _ (length_sampleHeader _ _ _)]
  have hf : (readHeader metadataInput).dsd_chunk.file_size = 95 := by rw [hr]; decide
  have hp : (readHeader metadataInput).dsd_chunk.metadata_ptr = 92 := by rw [hr]; decide
  have h := C9_metadata_preserved zeroEnv "dsfutil" "linvert" "in.dsf" "out.dsf"
    metadataInput (by decide) (by rw [hr]; decide) (by rw [hl]; norm_num)
    (by rw [hl, hf]) (by rw [hp]; decide) (by rw [hp, hf]; decide) (by rw [hl]; decide)
  rw [hf, hp] at h
  obtain ⟨out, ho, hd⟩ := h
  refine ⟨out, ho, ?_⟩
  rw [hd, metadataInput, List.drop_left' (length_sampleHeader _ _ _)]

/-- C10, counterexample to the claim as stated: a container that satisfies
the hypotheses (header accepted, payload length 0, actual length equal to
`file_size = 94`, `92 + 0 ≤ metadata_ptr = 93 < 94`, so one byte of gap) is
converted to an output of 93 bytes: the gap byte is dropped, the output is
shorter than the input and its metadata byte sits at offset 92, not at the
offset 93 recorded in the copied header. -/
theorem C10_gap_counterexample :
    validate (readHeader gapInput) = none ∧
    (readHeader gapInput).data_chunk.length = 12 + 8192 * 0 ∧
    gapInput.length = (readHeader gapInput).dsd_chunk.file_size ∧
    92 + 8192 * 0 ≤ (readHeader gapInput).dsd_chunk.metadata_ptr ∧
    (readHeader gapInput).dsd_chunk.metadata_ptr < (readHeader gapInput).dsd_chunk.file_size ∧
    ∃ out, (dsfutil.main zeroEnv ["dsfutil", "swapch", "in.dsf", "out.dsf"]
        (some gapInput) true).output = some out ∧
      out = gapInput.take 92 ++ [9] ∧ out.length ≠ gapInput.length ∧
      out.drop 93 ≠ gapInput.drop 93 := by
  have hl : gapInput.length = 94 := by
    simp only [gapInput, List.length_append, length_sampleHeader, List.length_cons,
      List.length_nil]
  have hr : readHeader gapInput = dsf_header_t.ofBytes (sampleHeader 94 93 12).toBytes := by
    rw [gapInput, readHeader_append _ _ (length_sampleHeader _ _ _)]
  have hv : validate (readHeader gapInput) = none := by rw [hr]; decide
  have hd : (readHeader gapInput).data_chunk.length = 12 + 8192 * 0 := by rw [hr]; decide
  have hf : (readHeader gapInput).dsd_chunk.file_size = 94 := by rw [hr]; decide
  have hp : (readHeader gapInput).dsd_chunk.metadata_ptr = 93 := by rw [hr]; decide
  have hd93 : gapInput.drop 93 = [9] := by
    rw [gapInput, show (93 : Nat) = 92 + 1 from rfl, ← List.drop_drop,
      List.drop_left' (length_sampleHeader _ _ _)]
    rfl
  have hm : metadataOut zeroEnv (readHeader gapInput) gapInput = [9] := by
    rw [metadataOut_eq_drop zeroEnv _ gapInput (by rw [hp]; decide) (by rw [hp, hf]; decide)
      (by rw [hl, hf]) (by rw [hl]; norm_num), hp]
    exact hd93
  refine ⟨hv, hd, by rw [hl, hf], by rw [hp]; decide, by rw [hp, hf]; decide, ?_⟩
  rw [main_eq_convert _ _ _ _ _ _ (by decide),
    convert_full zeroEnv _ gapInput 0 (by rw [hl]; decide) hv hd
      (readMetadata_ne_segv _ _ _ (allocated_within zeroEnv _ gapInput
        (by rw [hp, hf]; decide) (by rw [hl, hf]) (by rw [hl]; norm_num))), hm]
  refine ⟨_, rfl, rfl, ?_, ?_⟩
  · have h92 : (fread gapInput 0 92).length = 92 :=
      length_fread_header gapInput (by rw [hl]; decide)
    have hp0 : (pairsOut (readOperation "swapch") gapInput 92 0).length = 0 := rfl
    rw [List.length_append, List.length_append, h92, hp0, hl]
    decide
  · have h92 : (fread gapInput 0 92 ++ pairsOut (readOperation "swapch") gapInput 92 0 ++
        [9]).length ≤ 93 := by
      have h92 : (fread gapInput 0 92).length = 92 :=
        length_fread_header gapInput (by rw [hl]; decide)
      have hp0 : (pairsOut (readOperation "swapch") gapInput 92 0).length = 0 := rfl
      rw [List.length_append, List.length_append, h92, hp0]
      decide
    rw [List.drop_eq_nil_of_le h92, hd93]
    decide

/-- C10, amended: for every container without a gap and without trailing
bytes (header accepted, payload length `8192 * n`, actual length equal to
`file_size` and below `2 ^ 63`, and either `metadata_ptr = 0` with
`file_size = 92 + 8192 * n`, or `metadata_ptr = 92 + 8192 * n < file_size`)
and every operation, the output has the length of the input and equals the
input at every offset outside the payload region; the metadata sits at the
offset `metadata_ptr` recorded in the header. -/
theorem C10_layout_without_gap (env : Env) (a0 arg a2 a3 : String) (input : List Byte)
    (n : Nat) (harg : readOperation arg ≠ .OP_INVALID)
    (hv : validate (readHeader input) = none)
    (hd : (readHeader input).data_chunk.length = 12 + 8192 * n)
    (hfile : input.length < 2 ^ 63)
    (hsize : input.length = (readHeader input).dsd_chunk.file_size)
    (hlayout : ((readHeader input).dsd_chunk.metadata_ptr = 0 ∧
        (readHeader input).dsd_chunk.file_size = 92 + 8192 * n) ∨
      ((readHeader input).dsd_chunk.metadata_ptr = 92 + 8192 * n ∧
        (readHeader input).dsd_chunk.metadata_ptr < (readHeader input).dsd_chunk.file_size)) :
    ∃ out, (dsfutil.main env [a0, arg, a2, a3] (some input) true).output = some out ∧
      out.length = input.length ∧
      out.take 92 = input.take 92 ∧
      out.drop (92 + 8192 * n) = input.drop (92 + 8192 * n) ∧
      (∀ i, i < 92 ∨ 92 + 8192 * n ≤ i → out[i]? = input[i]?) ∧
      ((readHeader input).dsd_chunk.metadata_ptr ≠ 0 →
        out.drop (readHeader input).dsd_chunk.metadata_ptr =
          input.drop (readHeader input).dsd_chunk.metadata_ptr) := by
  have hlen : 92 + 8192 * n ≤ input.length := by omega
  have hH : (fread input 0 92).length = 92 := length_fread_header input (by omega)
  have hP := length_pairsOut (readOperation arg) input 92 n hlen
  have hM : metadataOut env (readHeader input) input = input.drop (92 + 8192 * n) := by
    rcases hlayout with ⟨h0, hfs⟩ | ⟨hmp, hlt⟩
    · rw [metadataOut_zero env _ input h0, List.drop_eq_nil_of_le (by omega)]
    · rw [metadataOut_eq_drop env _ input (by omega) (by omega) hsize hfile, hmp]
  obtain ⟨s1, s2, s3⟩ := split3 (fread input 0 92) (pairsOut (readOperation arg) input 92 n)
    (input.drop (92 + 8192 * n)) 92 (8192 * n) hH hP
  have hlenout : (fread input 0 92 ++ pairsOut (readOperation arg) input 92 n ++
      input.drop (92 + 8192 * n)).length = input.length := by
    rw [List.length_append, List.length_append, hH, hP, List.length_drop]
    omega
  have hal : MetadataAllocated env (readHeader input) input := by
    rcases hlayout with ⟨h0, _⟩ | ⟨_, hlt⟩
    · exact Or.inl h0
    · exact allocated_within env _ input (by omega) hsize hfile
  rw [main_eq_convert env a0 arg a2 a3 input harg,
    convert_full env (readOperation arg) input n hlen hv hd
      (readMetadata_ne_segv env _ input hal), hM]
  refine ⟨_, rfl, hlenout, s1, s3, ?_, ?_⟩
  · intro i hi
    rcases hi with hi | hi
    · rw [← List.getElem?_take_of_lt hi, s1]
      exact List.getElem?_take_of_lt hi
    · obtain ⟨j, rfl⟩ : ∃ j, i = 92 + 8192 * n + j := ⟨i - (92 + 8192 * n), by omega⟩
      rw [← List.getElem?_drop, s3, List.getElem?_drop]
  · intro h0
    rcases hlayout with ⟨h0', _⟩ | ⟨hmp, _⟩
    · exact absurd h0' h0
    · rw [hmp]
      exact s3

/-- C10 at a container whose three bytes of metadata follow the header
without a gap: the output has the length of the input. -/
theorem C10_no_gap_witness :
    ∃ out, (dsfutil.main zeroEnv ["dsfutil", "invert", "in.dsf", "out.dsf"]
        (some metadataInput) true).output = some out ∧
      out.length = metadataInput.length ∧ out.take 92 = metadataInput.take 92 ∧
      out.drop (92 + 8192 * 0) = metadataInput.drop (92 + 8192 * 0) := by
  have hl : metadataInput.length = 95 := by
    simp only [metadataInput, List.length_append, length_sampleHeader, List.length_cons,
      List.length_nil]
  have hr : readHeader metadataInput =
      dsf_header_t.ofBytes (sampleHeader 95 92 12).toBytes := by
    rw [metadataInput, readHeader_append _ _ (length_sampleHeader _ _ _)]
  have hf : (readHeader metadataInput).dsd_chunk.file_size = 95 := by rw [hr]; decide
  have hp : (readHeader metadataInput).dsd_chunk.metadata_ptr = 92 := by rw [hr]; decide
  obtain ⟨out, ho, h1, h2, h3, _⟩ := C10_layout_without_gap zeroEnv "dsfutil" "invert"
    "in.dsf" "out.dsf" metadataInput 0 (by decide) (by rw [hr]; decide)
    (by rw [hr]; decide) (by rw [hl]; norm_num) (by rw [hl, hf])
    (Or.inr ⟨by rw [hp], by rw [hp, hf]; decide⟩)
  exact ⟨out, ho, h1, h2, h3⟩

/-- C11, counterexample to the claim as stated: `danglingInput` is a
container in the sense of the claim (header accepted, payload length
`8192 * 2`, input holding the full payload), but `metadata_ptr = 93` lies
beyond `file_size = 92`: the first run of `swapch` is killed while it reads
the metadata and leaves an empty output, on which the second run fails with
`Incomplete DSF header`; no payload is restored. -/
theorem C11_dangling_pointer_counterexample :
    validate (readHeader danglingInput) = none ∧
    (readHeader danglingInput).data_chunk.length = 12 + 8192 * 2 ∧
    92 + 8192 * 2 ≤ danglingInput.length ∧
    dsfutil.main zeroEnv ["dsfutil", "swapch", "in.dsf", "mid.dsf"]
      (some danglingInput) true = { status := 139, output := some [], diag := none } ∧
    dsfutil.main zeroEnv ["dsfutil", "swapch", "mid.dsf", "out.dsf"] (some []) true =
      { status := 1, output := some [], diag := some .incompleteHeader } ∧
    ¬ ∃ out1 out2,
      (dsfutil.main zeroEnv ["dsfutil", "swapch", "in.dsf", "mid.dsf"]
        (some danglingInput) true).output = some out1 ∧
      (dsfutil.main zeroEnv ["dsfutil", "swapch", "mid.dsf", "out.dsf"]
        (some out1) true).output = some out2 ∧
      (out2.drop 92).take (8192 * 2) = (danglingInput.drop 92).take (8192 * 2) := by
  have hmain := main_danglingInput zeroEnv "dsfutil" "swapch" "in.dsf" "mid.dsf" (by decide)
  have hsecond := main_empty_input zeroEnv "dsfutil" "swapch" "mid.dsf" "out.dsf" (by decide)
  refine ⟨validate_danglingInput, data_length_danglingInput,
    Nat.le_of_eq length_danglingInput.symm, hmain, hsecond, ?_⟩
  rintro ⟨out1, out2, h1, h2, hp⟩
  rw [hmain] at h1
  have e1 : out1 = [] := (Option.some.inj h1).symm
  rw [e1, hsecond] at h2
  have e2 : out2 = [] := (Option.some.inj h2).symm
  rw [e2] at hp
  exact no_original_payload_in_empty hp

/-- C11, amended: for every valid container (header accepted, payload
length `8192 * n`, input holding the full payload) whose metadata
allocation succeeds (`metadata_ptr = 0`, or `malloc` returns memory for the
metadata length), running `swapch` on the input and `swapch` again on the
output gives a file whose payload region equals the original payload; the
second run passes validation as well.  The same holds for two runs of
`dsfswap`. -/
theorem C11_swap_twice (env1 env2 : Env) (a0 a2 a3 b0 b2 b3 : String) (input : List Byte)
    (n : Nat) (hlen : 92 + 8192 * n ≤ input.length)
    (hv : validate (readHeader input) = none)
    (hd : (readHeader input).data_chunk.length = 12 + 8192 * n)
    (hm : MetadataAllocated env1 (readHeader input) input) :
    (∃ out1 out2,
      (dsfutil.main env1 [a0, "swapch", a2, a3] (some input) true).output = some out1 ∧
      validate (readHeader out1) = none ∧
      dsfutil.main env2 [b0, "swapch", b2, b3] (some out1) true =
        { status := 0, output := some out2, diag := none } ∧
      (out2.drop 92).take (8192 * n) = (input.drop 92).take (8192 * n)) ∧
    (∃ out1 out2,
      (dsfswap.main env1 [a0, a2, a3] (some input) true).output = some out1 ∧
      validate (readHeader out1) = none ∧
      dsfswap.main env2 [b0, b2, b3] (some out1) true =
        { status := 0, output := some out2, diag := none } ∧
      (out2.drop 92).take (8192 * n) = (input.drop 92).take (8192 * n)) := by
  obtain ⟨out1, out2, c1, c2, hv1, _, h2⟩ :=
    convert_twice env1 env2 .OP_SWAP_CHANNELS input n hlen hv hd hm
  rw [mapPairs_swap_swap n _ (by rw [List.length_drop]; omega)] at h2
  refine ⟨⟨out1, out2, ?_, hv1, ?_, h2⟩, ⟨out1, out2, ?_, hv1, ?_, h2⟩⟩
  · rw [main_eq_convert _ _ _ _ _ _ (by decide), readOperation_swapch, c1]
  · rw [main_eq_convert _ _ _ _ _ _ (by decide), readOperation_swapch, c2]
  · simp only [dsfswap.main, if_true, dsfswap_convert_eq, c1]
  · simp only [dsfswap.main, if_true, dsfswap_convert_eq, c2]

/-- C11 at the container of the concrete scenario. -/
theorem C11_scenario_witness :
    ∃ out1 out2,
      (dsfutil.main zeroEnv ["dsfutil", "swapch", "in.dsf", "mid.dsf"]
        (some scenarioInput) true).output = some out1 ∧
      (dsfutil.main zeroEnv ["dsfutil", "swapch", "mid.dsf", "out.dsf"]
        (some out1) true).output = some out2 ∧
      (out2.drop 92).take (8192 * 2) = (scenarioInput.drop 92).take (8192 * 2) := by
  obtain ⟨out1, out2, h1, _, h2, h3⟩ := (C11_swap_twice zeroEnv zeroEnv "dsfutil" "in.dsf"
    "mid.dsf" "dsfutil" "mid.dsf" "out.dsf" scenarioInput 2
    (Nat.le_of_eq length_scenarioInput.symm) validate_scenarioInput
    data_length_scenarioInput (allocated_scenarioInput zeroEnv)).1
  exact ⟨out1, out2, h1, by rw [h2], h3⟩

/-- C12, counterexample to the claim as stated: `danglingInput` is a
container in the sense of the claim (header accepted, payload length
`8192 * 2`, input holding the full payload), but `metadata_ptr = 93` lies
beyond `file_size = 92`: the first run of `invert` is killed while it reads
the metadata and leaves an empty output, on which the second run fails with
`Incomplete DSF header`; no payload is restored. -/
theorem C12_dangling_pointer_counterexample :
    validate (readHeader danglingInput) = none ∧
    (readHeader danglingInput).data_chunk.length = 12 + 8192 * 2 ∧
    92 + 8192 * 2 ≤ danglingInput.length ∧
    dsfutil.main zeroEnv ["dsfutil", "invert", "in.dsf", "mid.dsf"]
      (some danglingInput) true = { status := 139, output := some [], diag := none } ∧
    dsfutil.main zeroEnv ["dsfutil", "invert", "mid.dsf", "out.dsf"] (some []) true =
      { status := 1, output := some [], diag := some .incompleteHeader } ∧
    ¬ ∃ out1 out2,
      (dsfutil.main zeroEnv ["dsfutil", "invert", "in.dsf", "mid.dsf"]
        (some danglingInput) true).output = some out1 ∧
      (dsfutil.main zeroEnv ["dsfutil", "invert", "mid.dsf", "out.dsf"]
        (some out1) true).output = some out2 ∧
      (out2.drop 92).take (8192 * 2) = (danglingInput.drop 92).take (8192 * 2) := by
  have hmain := main_danglingInput zeroEnv "dsfutil" "invert" "in.dsf" "mid.dsf" (by decide)
  have hsecond := main_empty_input zeroEnv "dsfutil" "invert" "mid.dsf" "out.dsf" (by decide)
  refine ⟨validate_danglingInput, data_length_danglingInput,
    Nat.le_of_eq length_danglingInput.symm, hmain, hsecond, ?_⟩
  rintro ⟨out1, out2, h1, h2, hp⟩
  rw [hmain] at h1
  have e1 : out1 = [] := (Option.some.inj h1).symm
  rw [e1, hsecond] at h2
  have e2 : out2 = [] := (Option.some.inj h2).symm
  rw [e2] at hp
  exact no_original_payload_in_empty hp

/-- C12, amended: for every valid container (header accepted, payload
length `8192 * n`, input holding the full payload) whose metadata
allocation succeeds (`metadata_ptr = 0`, or `malloc` returns memory for the
metadata length), running `invert` on the input and `invert` again on the
output gives a file whose payload region equals the original payload,
because `bitNot` is its own inverse. -/
theorem C12_invert_twice (env1 env2 : Env) (a0 a2 a3 b0 b2 b3 : String) (input : List Byte)
    (n : Nat) (hlen : 92 + 8192 * n ≤ input.length)
    (hv : validate (readHeader input) = none)
    (hd : (readHeader input).data_chunk.length = 12 + 8192 * n)
    (hm : MetadataAllocated env1 (readHeader input) input) :
    (∃ out1 out2,
      (dsfutil.main env1 [a0, "invert", a2, a3] (some input) true).output = some out1 ∧
      validate (readHeader out1) = none ∧
      dsfutil.main env2 [b0, "invert", b2, b3] (some out1) true =
        { status := 0, output := some out2, diag := none } ∧
      (out2.drop 92).take (8192 * n) = (input.drop 92).take (8192 * n)) ∧
    (∀ b : Byte, bitNot (bitNot b) = b) := by
  obtain ⟨out1, out2, c1, c2, hv1, _, h2⟩ :=
    convert_twice env1 env2 .OP_INVERT input n hlen hv hd hm
  rw [mapPairs_invert_invert n _ (by rw [List.length_drop]; omega)] at h2
  refine ⟨⟨out1, out2, ?_, hv1, ?_, h2⟩, bitNot_bitNot⟩
  · rw [main_eq_convert _ _ _ _ _ _ (by decide), readOperation_invert, c1]
  · rw [main_eq_convert _ _ _ _ _ _ (by decide), readOperation_invert, c2]

/-- C12 at the container of the concrete scenario. -/
theorem C12_scenario_witness :
    ∃ out1 out2,
      (dsfutil.main zeroEnv ["dsfutil", "invert", "in.dsf", "mid.dsf"]
        (some scenarioInput) true).output = some out1 ∧
      (dsfutil.main zeroEnv ["dsfutil", "invert", "mid.dsf", "out.dsf"]
        (some out1) true).output = some out2 ∧
      (out2.drop 92).take (8192 * 2) = (scenarioInput.drop 92).take (8192 * 2) := by
  obtain ⟨out1, out2, h1, _, h2, h3⟩ := (C12_invert_twice zeroEnv zeroEnv "dsfutil" "in.dsf"
    "mid.dsf" "dsfutil" "mid.dsf" "out.dsf" scenarioInput 2
    (Nat.le_of_eq length_scenarioInput.symm) validate_scenarioInput
    data_length_scenarioInput (allocated_scenarioInput zeroEnv)).1
  exact ⟨out1, out2, h1, by rw [h2], h3⟩

/-- C13, counterexample to the claim as stated: `danglingInput` is a
container in the sense of the claim (header accepted, payload length
`8192 * 2`, input holding the full payload), but `metadata_ptr = 93` lies
beyond `file_size = 92`: the single application of `lisolate` is killed
while it reads the metadata and leaves an empty output, which holds no
payload of isolated pairs; running `lisolate` on that output fails with
`Incomplete DSF header` and yields no payload either. -/
theorem C13_dangling_pointer_counterexample :
    validate (readHeader danglingInput) = none ∧
    (readHeader danglingInput).data_chunk.length = 12 + 8192 * 2 ∧
    92 + 8192 * 2 ≤ danglingInput.length ∧
    dsfutil.main zeroEnv ["dsfutil", "lisolate", "in.dsf", "mid.dsf"]
      (some danglingInput) true = { status := 139, output := some [], diag := none } ∧
    dsfutil.main zeroEnv ["dsfutil", "lisolate", "mid.dsf", "out.dsf"] (some []) true =
      { status := 1, output := some [], diag := some .incompleteHeader } ∧
    (¬ ∃ out1,
      (dsfutil.main zeroEnv ["dsfutil", "lisolate", "in.dsf", "mid.dsf"]
        (some danglingInput) true).output = some out1 ∧
      (out1.drop 92).take (8192 * 2) = (List.range 2).flatMap (fun k =>
        (danglingInput.drop (92 + 8192 * k)).take 4096 ++
          (danglingInput.drop (92 + 8192 * k)).take 4096)) ∧
    ¬ ∃ out1 out2,
      (dsfutil.main zeroEnv ["dsfutil", "lisolate", "in.dsf", "mid.dsf"]
        (some danglingInput) true).output = some out1 ∧
      dsfutil.main zeroEnv ["dsfutil", "lisolate", "mid.dsf", "out.dsf"] (some out1) true =
        { status := 0, output := some out2, diag := none } := by
  have hmain := main_danglingInput zeroEnv "dsfutil" "lisolate" "in.dsf" "mid.dsf"
    (by decide)
  have hsecond := main_empty_input zeroEnv "dsfutil" "lisolate" "mid.dsf" "out.dsf"
    (by decide)
  refine ⟨validate_danglingInput, data_length_danglingInput,
    Nat.le_of_eq length_danglingInput.symm, hmain, hsecond, ?_, ?_⟩
  · rintro ⟨out1, h1, hp⟩
    rw [hmain] at h1
    have e1 : out1 = [] := (Option.some.inj h1).symm
    rw [e1] at hp
    exact no_payload_in_empty .OP_LEFT_ISOLATE danglingInput 2 (by decide)
      (Nat.le_of_eq length_danglingInput.symm) hp
  · rintro ⟨out1, out2, h1, h2⟩
    rw [hmain] at h1
    have e1 : out1 = [] := (Option.some.inj h1).symm
    rw [e1, hsecond] at h2
    have hs : (1 : Nat) = 0 := congrArg Outcome.status h2
    omega

/-- C13, amended: for every valid container (header accepted, payload
length `8192 * n`, input holding the full payload) whose metadata
allocation succeeds (`metadata_ptr = 0`, or `malloc` returns memory for the
metadata length), running `lisolate` on the output of `lisolate` gives the
payload of the single application, and in that payload the right block of
every pair equals its left block. -/
theorem C13_lisolate_idempotent (env1 env2 : Env) (a0 a2 a3 b0 b2 b3 : String)
    (input : List Byte) (n : Nat) (hlen : 92 + 8192 * n ≤ input.length)
    (hv : validate (readHeader input) = none)
    (hd : (readHeader input).data_chunk.length = 12 + 8192 * n)
    (hm : MetadataAllocated env1 (readHeader input) input) :
    ∃ out1 out2,
      (dsfutil.main env1 [a0, "lisolate", a2, a3] (some input) true).output = some out1 ∧
      validate (readHeader out1) = none ∧
      dsfutil.main env2 [b0, "lisolate", b2, b3] (some out1) true =
        { status := 0, output := some out2, diag := none } ∧
      (out2.drop 92).take (8192 * n) = (out1.drop 92).take (8192 * n) ∧
      ∀ k, k < n →
        (((out1.drop 92).take (8192 * n)).drop (8192 * k + 4096)).take 4096 =
          (((out1.drop 92).take (8192 * n)).drop (8192 * k)).take 4096 := by
  obtain ⟨out1, out2, c1, c2, hv1, h1, h2⟩ :=
    convert_twice env1 env2 .OP_LEFT_ISOLATE input n hlen hv hd hm
  have hl : 8192 * n ≤ (input.drop 92).length := by rw [List.length_drop]; omega
  rw [mapPairs_lisolate_lisolate n _ hl, ← h1] at h2
  refine ⟨out1, out2, ?_, hv1, ?_, h2, ?_⟩
  · rw [main_eq_convert _ _ _ _ _ _ (by decide), readOperation_lisolate, c1]
  · rw [main_eq_convert _ _ _ _ _ _ (by decide), readOperation_lisolate, c2]
  · intro k hk
    rw [h1]
    exact mapPairs_lisolate_blocks n _ hl k hk

/-- C13 at the container of the concrete scenario. -/
theorem C13_scenario_witness :
    ∃ out1 out2,
      (dsfutil.main zeroEnv ["dsfutil", "lisolate", "in.dsf", "mid.dsf"]
        (some scenarioInput) true).output = some out1 ∧
      (dsfutil.main zeroEnv ["dsfutil", "lisolate", "mid.dsf", "out.dsf"]
        (some out1) true).output = some out2 ∧
      (out2.drop 92).take (8192 * 2) = (out1.drop 92).take (8192 * 2) := by
  obtain ⟨out1, out2, h1, _, h2, h3, _⟩ := C13_lisolate_idempotent zeroEnv zeroEnv "dsfutil"
    "in.dsf" "mid.dsf" "dsfutil" "mid.dsf" "out.dsf" scenarioInput 2
    (Nat.le_of_eq length_scenarioInput.symm) validate_scenarioInput
    data_length_scenarioInput (allocated_scenarioInput zeroEnv)
  exact ⟨out1, out2, h1, by rw [h2], h3⟩

/-- C16: the operation lookup maps the keywords `swapch`, `lisolate`,
`risolate`, `linvert`, `rinvert`, `invert` to swap, left-isolate,
right-isolate, left-invert, right-invert, invert-both, by exact
(case-sensitive) string equality; every other keyword gives the invalid
operation, and then the program exits with status 1 without having opened
the input or the output (no output exists). -/
theorem C16_operation_lookup :
    readOperation "swapch" = .OP_SWAP_CHANNELS ∧
    readOperation "lisolate" = .OP_LEFT_ISOLATE ∧
    readOperation "risolate" = .OP_RIGHT_ISOLATE ∧
    readOperation "linvert" = .OP_LEFT_INVERT ∧
    readOperation "rinvert" = .OP_RIGHT_INVERT ∧
    readOperation "invert" = .OP_INVERT ∧
    (∀ arg : String,
      arg ∉ ["swapch", "lisolate", "risolate", "linvert", "rinvert", "invert"] →
      readOperation arg = .OP_INVALID) ∧
    readOperation "SWAPCH" = .OP_INVALID ∧
    (∀ (env : Env) (a0 arg a2 a3 : String) (inFile : Option (List Byte)) (outOpens : Bool),
      readOperation arg = .OP_INVALID →
      dsfutil.main env [a0, arg, a2, a3] inFile outOpens =
        { status := 1, output := none, diag := some (.invalidOperation arg) }) ∧
    (∀ arg : String, Diag.kind (.invalidOperation arg) = .UnknownOperation) := by
  refine ⟨by decide, by decide, by decide, by decide, by decide, by decide, ?_, by decide,
    ?_, fun _ => rfl⟩
  · intro arg h
    simp only [List.mem_cons, List.mem_singleton, List.not_mem_nil, or_false, not_or] at h
    obtain ⟨h1, h2, h3, h4, h5, h6⟩ := h
    have r : List.range NUM_OPERATIONS = [0, 1, 2, 3, 4, 5] := rfl
    have k0 : keywordAt 0 = "swapch" := rfl
    have k1 : keywordAt 1 = "lisolate" := rfl
    have k2 : keywordAt 2 = "risolate" := rfl
    have k3 : keywordAt 3 = "linvert" := rfl
    have k4 : keywordAt 4 = "rinvert" := rfl
    have k5 : keywordAt 5 = "invert" := rfl
    simp only [readOperation, r, List.foldl, k0, k1, k2, k3, k4, k5, h1, h2, h3, h4, h5, h6,
      if_false]
  · intro env a0 arg a2 a3 inFile outOpens h
    simp only [dsfutil.main, h, if_true]

/-- C17: the three tag checks `strncmp(field, literal, 4) != 0`, with the
comparison stopping after a NUL, pass exactly when the four bytes of the
field equal `DSD `, `fmt ` or `data`: for every four bytes, NUL bytes
included. -/
theorem C17_tag_checks_exact (a b c d : Byte) :
    (strncmp [a, b, c, d] lit_DSD 4 = 0 ↔ [a, b, c, d] = [68, 83, 68, 32]) ∧
    (strncmp [a, b, c, d] lit_fmt 4 = 0 ↔ [a, b, c, d] = [102, 109, 116, 32]) ∧
    (strncmp [a, b, c, d] lit_data 4 = 0 ↔ [a, b, c, d] = [100, 97, 116, 97]) :=
  ⟨strncmp_DSD _ rfl, strncmp_fmt _ rfl, strncmp_data _ rfl⟩

/-- C15: the parser reads exactly `92 = 28 + 52 + 12` header bytes.  For
every input shorter than 92 bytes the run fails with the diagnostic
`Incomplete DSF header` (kind `TruncatedHeader`), whatever the bytes are;
for every input of at least 92 bytes that diagnostic is not reported, and
the header holds the fields decoded little-endian at the fixed offsets of
the layout table (for example `metadata_ptr` from bytes 20 to 27,
`block_size` from 72 to 75, the data chunk length from 84 to 91). -/
theorem C15_header_parse (env : Env) (a0 arg a2 a3 : String) (input : List Byte)
    (harg : readOperation arg ≠ .OP_INVALID) :
    sizeof_dsf_header_t = 28 + 52 + 12 ∧ sizeof_dsf_header_t = 92 ∧
    (input.length < 92 →
      dsfutil.main env [a0, arg, a2, a3] (some input) true =
        { status := 1, output := some [], diag := some .incompleteHeader } ∧
      Diag.kind .incompleteHeader = .TruncatedHeader) ∧
    (92 ≤ input.length →
      (dsfutil.main env [a0, arg, a2, a3] (some input) true).diag ≠
        some .incompleteHeader ∧
      readHeader input =
        { dsd_chunk :=
            { header := (input.drop 0).take 4
              length := littleEndianAt input 4 8
              file_size := littleEndianAt input 12 8
              metadata_ptr := littleEndianAt input 20 8 }
          fmt_chunk :=
            { header := (input.drop 28).take 4
              length := littleEndianAt input 32 8
              version := littleEndianAt input 40 4
              id := littleEndianAt input 44 4
              channel_type := littleEndianAt input 48 4
              num_channels := littleEndianAt input 52 4
              sample_rate := littleEndianAt input 56 4
              bits_per_sample := littleEndianAt input 60 4
              num_samples := littleEndianAt input 64 8
              block_size := littleEndianAt input 72 4
              reserved := littleEndianAt input 76 4 }
          data_chunk :=
            { header := (input.drop 80).take 4
              length := littleEndianAt input 84 8 } }) := by
  refine ⟨rfl, rfl, fun hlt => ⟨?_, rfl⟩, fun hlen => ⟨?_, ?_⟩⟩
  · rw [main_eq_convert env a0 arg a2 a3 input harg, convert_truncated env _ input hlt]
  · rw [main_eq_convert env a0 arg a2 a3 input harg]
    cases hv : validate (readHeader input) with
    | none =>
      rcases convert_cases env (readOperation arg) input hlen hv with hX | ⟨X, hX, _⟩
      · rw [hX]
        simp
      · rw [hX]
        simp
    | some d =>
      rw [convert_invalid env (readOperation arg) input hlen d hv]
      intro hd
      have hd' : d = .incompleteHeader := by simpa using hd
      rw [hd'] at hv
      exact validate_ne_incomplete _ hv
  · rw [readHeader_eq, dsf_header_t.ofBytes,
      leVal_header_field input 4 8 (by omega) hlen,
      leVal_header_field input 12 8 (by omega) hlen,
      leVal_header_field input 20 8 (by omega) hlen,
      leVal_header_field input 32 8 (by omega) hlen,
      leVal_header_field input 40 4 (by omega) hlen,
      leVal_header_field input 44 4 (by omega) hlen,
      leVal_header_field input 48 4 (by omega) hlen,
      leVal_header_field input 52 4 (by omega) hlen,
      leVal_header_field input 56 4 (by omega) hlen,
      leVal_header_field input 60 4 (by omega) hlen,
      leVal_header_field input 64 8 (by omega) hlen,
      leVal_header_field input 72 4 (by omega) hlen,
      leVal_header_field input 76 4 (by omega) hlen,
      leVal_header_field input 84 8 (by omega) hlen,
      field_fread input 0 4 (by omega), field_fread input 28 4 (by omega),
      field_fread input 80 4 (by omega)]
    rfl

/-- C15 at an input of three bytes: the header is incomplete. -/
theorem C15_truncated_witness :
    dsfutil.main zeroEnv ["dsfutil", "swapch", "in.dsf", "out.dsf"] (some [68, 83, 68]) true =
      { status := 1, output := some [], diag := some .incompleteHeader } :=
  ((C15_header_parse zeroEnv "dsfutil" "swapch" "in.dsf" "out.dsf" [68, 83, 68]
    (by decide)).2.2.1 (by decide)).1

/-- C18, counterexample to the claim as stated: the header of
`danglingShortLengthInput` passes validation with data chunk length 0, but
`metadata_ptr = 93` lies beyond `file_size = 92`: `dsfutil` and `dsfswap`
are killed while they read the metadata, before the loop is reached, and
the output is empty; no block pair is emitted. -/
theorem C18_dangling_pointer_counterexample :
    validate (readHeader danglingShortLengthInput) = none ∧
    (readHeader danglingShortLengthInput).data_chunk.length < 12 ∧
    dsfutil.main zeroEnv ["dsfutil", "swapch", "in.dsf", "out.dsf"]
      (some danglingShortLengthInput) true =
      { status := 139, output := some [], diag := none } ∧
    dsfswap.main zeroEnv ["dsfswap", "in.dsf", "out.dsf"]
      (some danglingShortLengthInput) true =
      { status := 139, output := some [], diag := none } ∧
    ¬ ∃ out, (dsfutil.main zeroEnv ["dsfutil", "swapch", "in.dsf", "out.dsf"]
        (some danglingShortLengthInput) true).output = some out ∧
      8192 * 2 ^ 51 ≤ out.length := by
  have hl : 92 ≤ danglingShortLengthInput.length := by
    rw [length_danglingShortLengthInput]
    omega
  have hmain := main_segv zeroEnv "dsfutil" "swapch" "in.dsf" "out.dsf"
    danglingShortLengthInput (by decide) hl validate_danglingShortLengthInput
    (readMetadata_danglingShortLengthInput zeroEnv)
  have hswap := dsfswap_main_segv zeroEnv "dsfswap" "in.dsf" "out.dsf"
    danglingShortLengthInput hl validate_danglingShortLengthInput
    (readMetadata_danglingShortLengthInput zeroEnv)
  refine ⟨validate_danglingShortLengthInput, ?_, hmain, hswap, ?_⟩
  · rw [readHeader_danglingShortLengthInput]
    decide
  · rintro ⟨out, ho, hbig⟩
    rw [hmain] at ho
    have he : out = [] := (Option.some.inj ho).symm
    rw [he, List.length_nil] at hbig
    omega

/-- C18, amended: the data chunk length is never validated, and the
payload length is computed in unsigned 64-bit arithmetic.  For every header
that passes validation with a data chunk length below 12 and whose metadata
allocation succeeds (`metadata_ptr = 0`, or `malloc` returns memory for the
metadata length), the block count is `((length - 12) mod 2 ^ 64) / 4096`,
which is at least `2 ^ 52 - 1`; the conversion is not rejected (`dsfutil`
and `dsfswap` exit with status 0) and the loop runs at least `2 ^ 51`
times, writing at least `8192 * 2 ^ 51` bytes, whatever the length of the
input is. -/
theorem C18_short_data_length (env : Env) (a0 arg a2 a3 : String) (input : List Byte)
    (harg : readOperation arg ≠ .OP_INVALID) (hlen : 92 ≤ input.length)
    (hv : validate (readHeader input) = none)
    (hshort : (readHeader input).data_chunk.length < 12)
    (hm : MetadataAllocated env (readHeader input) input) :
    numBlocks (readHeader input) =
      (((readHeader input).data_chunk.length + 2 ^ 64 - 12) % 2 ^ 64) / 4096 ∧
    2 ^ 52 - 1 ≤ numBlocks (readHeader input) ∧
    (dsfutil.main env [a0, arg, a2, a3] (some input) true).status = 0 ∧
    (dsfswap.main env [a0, a2, a3] (some input) true).status = 0 ∧
    (∀ s, blockLoop (readOperation arg) input (numBlocks (readHeader input))
        (numBlocks_lt (readHeader input)) 0 s =
      (loopBody (readOperation arg) input)^[(numBlocks (readHeader input) + 1) / 2] s) ∧
    2 ^ 51 ≤ (numBlocks (readHeader input) + 1) / 2 ∧
    (∃ X, (dsfutil.main env [a0, arg, a2, a3] (some input) true).output =
        some (input.take 92 ++ X ++ metadataOut env (readHeader input) input) ∧
      8192 * 2 ^ 51 ≤ X.length) ∧
    (∀ (h : dsf_header_t) (length : Nat),
      validate { h with data_chunk := { h.data_chunk with length := length } } =
        validate h) := by
  have hn := numBlocks_eq (readHeader input)
  have hge : 2 ^ 52 - 1 ≤ numBlocks (readHeader input) := by
    rw [hn]
    omega
  have hns := readMetadata_ne_segv env _ input hm
  obtain ⟨X, hX, hXl⟩ := main_shape env a0 arg a2 a3 input harg hlen hv hns
  obtain ⟨Y, hY, _⟩ := dsfswap_main_shape env a0 a2 a3 input hlen hv hns
  refine ⟨hn, hge, by rw [hX], by rw [hY], fun s => ?_, by omega, ⟨X, by rw [hX], ?_⟩,
    fun _ _ => rfl⟩
  · exact blockLoop_eq_iterate _ _ _ _ _ 0 s (by rw [Nat.sub_zero])
  · rw [hXl]
    have : 2 ^ 51 ≤ (numBlocks (readHeader input) + 1) / 2 := by omega
    exact Nat.mul_le_mul_left 8192 this

/-- C18 at a header-only container with data chunk length 0: it is
converted with exit status 0. -/
theorem C18_zero_length_witness :
    (dsfutil.main zeroEnv ["dsfutil", "swapch", "in.dsf", "out.dsf"]
      (some shortLengthInput) true).status = 0 ∧
    2 ^ 52 - 1 ≤ numBlocks (readHeader shortLengthInput) := by
  have h := C18_short_data_length zeroEnv "dsfutil" "swapch" "in.dsf" "out.dsf"
    shortLengthInput (by decide) (by decide) (by decide) (by decide) (Or.inl (by decide))
  exact ⟨h.2.2.1, h.2.1⟩

/-- C20: the block loop `for (i = 0; i < num_blocks; i += 2)` over an
unsigned 64-bit counter ends for every data chunk length: `num_blocks` is a
quotient by 4096, so it is at most `2 ^ 52 - 1`, the addition `i + 2` never
wraps modulo `2 ^ 64` while `i < num_blocks`, and the loop (of `dsfutil` and
of `dsfswap`) is exactly `ceil(num_blocks / 2)` applications of its body;
run with a budget of more steps than that, the loop returns that state. -/
theorem C20_loop_terminates (operation : operation_t) (input : List Byte)
    (h : dsf_header_t) (s : LoopState) :
    numBlocks h = ((h.data_chunk.length + 2 ^ 64 - 12) % 2 ^ 64) / 4096 ∧
    numBlocks h ≤ 2 ^ 52 - 1 ∧
    (∀ i, i < numBlocks h → (i + 2) % 2 ^ 64 = i + 2) ∧
    blockLoop operation input (numBlocks h) (numBlocks_lt h) 0 s =
      (loopBody operation input)^[(numBlocks h + 1) / 2] s ∧
    dsfswap.blockLoop input (numBlocks h) (numBlocks_lt h) 0 s =
      (dsfswap.loopBody input)^[(numBlocks h + 1) / 2] s ∧
    (∀ fuel, (numBlocks h + 1) / 2 < fuel →
      blockLoopFuel operation input (numBlocks h) fuel 0 s =
        some ((loopBody operation input)^[(numBlocks h + 1) / 2] s)) := by
  have hlt := numBlocks_lt h
  refine ⟨numBlocks_eq h, by omega, fun i hi => Nat.mod_eq_of_lt (by omega), ?_, ?_,
    fun fuel hf => ?_⟩
  · exact blockLoop_eq_iterate _ _ _ _ _ 0 s (by rw [Nat.sub_zero])
  · exact dsfswap_blockLoop_eq_iterate _ _ _ _ 0 s (by rw [Nat.sub_zero])
  · exact blockLoopFuel_eq_iterate _ _ _ hlt _ 0 fuel s (by rw [Nat.sub_zero]) hf

end DSF
